import Mathlib

/-!
# vagent2: bootstrap and lifecycle supervisor (`src/main.c`)

A shallow embedding of `core_opt`, `core_alloc_plugins`, `core_plugins` and
`main`.  Library calls (`getopt`, `strtod`, `pidfile_open`, `daemon`) are
modelled by their documented behaviour; every call with an observable effect
is recorded as an `Event` of the run's trace.
-/

set_option autoImplicit false

namespace Vagent

/-! ## getopt(3) -/

/-- The option string `core_opt` hands to `getopt`. -/
def optstring : String := "hdp:H:n:S:T:t:c:"

/-- Looks a character up in an option string, as `getopt` does with `strchr`:
`none` when it is no option character, `some true` when the option takes an
argument (a colon follows it), `some false` otherwise. -/
def optLookup : List Char → Char → Option Bool
  | [], _ => none
  | o :: rest, c =>
    if c = ':' then none
    else if o = c then
      match rest with
      | ':' :: _ => some true
      | _ => some false
    else optLookup rest c

/-- One value returned by `getopt`: a recognised option character with
`optarg`, or the error return `?` (unknown option character, or an option
whose argument is missing) with `optopt`. -/
inductive GetoptRet where
  | opt (c : Char) (optarg : Option String)
  | bad (optopt : Char)
  deriving DecidableEq, Repr

/-- The `int` that `getopt` hands back to the caller. -/
def GetoptRet.code : GetoptRet → Char
  | .opt c _ => c
  | .bad _ => '?'

/-- The value of `optarg` after the call. -/
def GetoptRet.optarg : GetoptRet → Option String
  | .opt _ a => a
  | .bad _ => none

/-- Scans the option characters of one `argv` element (the text after its
leading dash).  Returns the values `getopt` yields for it and, when the
element ends in an option that takes its argument from the next `argv`
element, that option character. -/
def scanCluster : List Char → List GetoptRet × Option Char
  | [] => ([], none)
  | c :: rest =>
    match optLookup optstring.data c with
    | none => (GetoptRet.bad c :: (scanCluster rest).1, (scanCluster rest).2)
    | some false => (GetoptRet.opt c none :: (scanCluster rest).1, (scanCluster rest).2)
    | some true =>
      match rest with
      | [] => ([], some c)
      | _ :: _ => ([GetoptRet.opt c (some (String.mk rest))], none)

/-- How `getopt` treats one `argv` element when it starts on it: the element
`--` ends the scan, an element that does not start with a dash (or is a lone
dash) is a non-option, anything else is a cluster of option characters. -/
inductive ArgKind where
  | endOfOptions
  | nonOption
  | cluster (rets : List GetoptRet) (pending : Option Char)

/-- Classifies one `argv` element. -/
def classify (a : String) : ArgKind :=
  match a.data with
  | '-' :: c :: cs =>
    if c = '-' ∧ cs = [] then .endOfOptions
    else .cluster (scanCluster (c :: cs)).1 (scanCluster (c :: cs)).2
  | _ => .nonOption

/-- The values successive `getopt` calls return before `-1`, scanning the
given `argv` elements; `pending` is an option still waiting for its argument,
which is the next element whatever it looks like.  With `permute` (GNU) a
non-option is skipped, without (POSIX) it ends the scan. -/
def getopt_go (permute : Bool) : Option Char → List String → List GetoptRet
  | none, [] => []
  | some o, [] => [GetoptRet.bad o]
  | some o, b :: rest => GetoptRet.opt o (some b) :: getopt_go permute none rest
  | none, a :: rest =>
    match classify a with
    | .endOfOptions => []
    | .nonOption => if permute then getopt_go permute none rest else []
    | .cluster rets pending => rets ++ getopt_go permute pending rest

/-- The sequence of values the calls `getopt(argc, argv, optstring)` return
before `-1`, for the elements of `argv` after `argv[0]`. -/
def getopt_all (permute : Bool) (args : List String) : List GetoptRet :=
  getopt_go permute none args

/-! ## strtod(3) -/

/-- The value of a C `double`, up to rounding: `finite q` stands for the
double nearest to the rational `q` (the sign of zero is not tracked). -/
inductive CDouble where
  | finite (q : ℚ)
  | inf (neg : Bool)
  | nan
  deriving DecidableEq

/-- Sign change of a `double`. -/
def CDouble.neg : CDouble → CDouble
  | .finite q => .finite (-q)
  | .inf b => .inf (!b)
  | .nan => .nan

/-- The white-space characters of the C locale (`isspace`). -/
def isspace (c : Char) : Bool :=
  c = ' ' || c = '\t' || c = '\n' || c = Char.ofNat 11 || c = Char.ofNat 12 || c = '\r'

/-- Hexadecimal digits (`isxdigit`). -/
def isxdigit (c : Char) : Bool :=
  c.isDigit || (decide ('a' ≤ c) && decide (c ≤ 'f')) || (decide ('A' ≤ c) && decide (c ≤ 'F'))

/-- The value of one digit character (0 for any other character). -/
def digitVal (c : Char) : Nat :=
  if c.isDigit then c.toNat - 48
  else if 'a' ≤ c ∧ c ≤ 'f' then c.toNat - 87
  else if 'A' ≤ c ∧ c ≤ 'F' then c.toNat - 55
  else 0

/-- The number a digit string denotes in the given base. -/
def digitsVal (base : Nat) (ds : List Char) : Nat :=
  ds.foldl (fun acc d => acc * base + digitVal d) 0

/-- The longest prefix of the form `digits`, `digits.digits`, `digits.` or
`.digits` holding at least one digit: its integer digits, its fraction digits
and the text after it. -/
def scanMantissa (isd : Char → Bool) (cs : List Char) :
    Option (List Char × List Char × List Char) :=
  match cs.dropWhile isd with
  | '.' :: r =>
    if cs.takeWhile isd = [] ∧ r.takeWhile isd = [] then none
    else some (cs.takeWhile isd, r.takeWhile isd, r.dropWhile isd)
  | r => if cs.takeWhile isd = [] then none else some (cs.takeWhile isd, [], r)

/-- The optional exponent part: the marker character (either case), an
optional sign and at least one decimal digit.  A missing or malformed
exponent part is not consumed and counts as exponent 0. -/
def scanExponent (lo up : Char) : List Char → Int
  | [] => 0
  | m :: r =>
    if m = lo ∨ m = up then
      match r with
      | '-' :: ds =>
        if ds.takeWhile Char.isDigit = [] then 0
        else - (digitsVal 10 (ds.takeWhile Char.isDigit) : Int)
      | '+' :: ds => (digitsVal 10 (ds.takeWhile Char.isDigit) : Int)
      | ds => (digitsVal 10 (ds.takeWhile Char.isDigit) : Int)
    else 0

/-- The rational `m / base ^ scale * ebase ^ e`. -/
def scaled (m base scale ebase : Nat) (e : Int) : ℚ :=
  (m : ℚ) / (base : ℚ) ^ scale * (ebase : ℚ) ^ e

/-- A hexadecimal floating constant: `0x` or `0X`, a hexadecimal mantissa and
an optional binary exponent. -/
def hexBody : List Char → Option CDouble
  | '0' :: x :: r =>
    if x = 'x' ∨ x = 'X' then
      match scanMantissa isxdigit r with
      | some (ip, fp, rest) =>
        some (.finite (scaled (digitsVal 16 (ip ++ fp)) 16 fp.length 2 (scanExponent 'p' 'P' rest)))
      | none => none
    else none
  | _ => none

/-- A decimal floating constant: a decimal mantissa and an optional decimal
exponent. -/
def decBody (cs : List Char) : Option CDouble :=
  match scanMantissa Char.isDigit cs with
  | some (ip, fp, rest) =>
    some (.finite (scaled (digitsVal 10 (ip ++ fp)) 10 fp.length 10 (scanExponent 'e' 'E' rest)))
  | none => none

/-- The words `inf`, `infinity` and `nan`, in any case. -/
def infnanBody (cs : List Char) : Option CDouble :=
  if (cs.take 3).map Char.toLower = ['i', 'n', 'f'] then some (.inf false)
  else if (cs.take 3).map Char.toLower = ['n', 'a', 'n'] then some .nan
  else none

/-- The subject sequence after white space and sign, converted; `none` when
it does not have the expected form. -/
def strtod_body (cs : List Char) : Option CDouble :=
  match hexBody cs with
  | some v => some v
  | none =>
    match decBody cs with
    | some v => some v
    | none => infnanBody cs

/-- The text after the leading white space. -/
def skipSpace (s : String) : List Char := s.data.dropWhile isspace

/-- The text after the leading white space and one optional sign. -/
def afterSign (s : String) : List Char :=
  match skipSpace s with
  | '-' :: r => r
  | '+' :: r => r
  | r => r

/-- Modelled on `strtod(nptr, NULL)`: skips white space, reads an optional
sign and the longest numeric prefix; yields zero when no conversion can be
performed. -/
def strtod (s : String) : CDouble :=
  match strtod_body (afterSign s) with
  | none => .finite 0
  | some v =>
    match skipSpace s with
    | '-' :: _ => v.neg
    | _ => v

/-! ## Data model -/

/-- Modelled from the spec: `struct agent_config_t` (declared in `common.h`,
which is not among the sources).  One field per option of `core_opt`; the
`char *` fields are `none` when `NULL`, `timeout` is a `double`, `d_arg` an
`int`. -/
structure agent_config_t where
  n_arg : Option String
  S_arg : Option String
  T_arg : Option String
  c_arg : Option String
  timeout : CDouble
  d_arg : Int
  p_arg : Option String
  H_arg : Option String
  deriving DecidableEq

/-- Modelled from the spec: `struct agent_plugin_t` (declared in `common.h`,
which is not among the sources).  `start` names the start entry point the
record holds (`none` when `NULL`), `thread` tells whether a worker-thread
handle is recorded; the `next` link is the order of the enclosing list. -/
structure agent_plugin_t where
  name : String
  start : Option String
  thread : Bool
  deriving DecidableEq, Repr

/-- The shared core: the configuration and the plugin list headed by
`core.plugins`. -/
structure agent_core_t where
  config : agent_config_t
  plugins : List agent_plugin_t
  deriving DecidableEq

/-- The observable calls of a run, in the order they are made. -/
inductive Event where
  | plugin_alloc (name : String)
  | core_opt
  | usage (argv0 : String)
  | init (name : String)
  | pidfile_open
  | errx (status : Int) (otherpid : Int)
  | warn (msg : String)
  | printf (format : String) (args : List String)
  | daemon
  | pidfile_remove
  | pidfile_write
  | start (entry : String) (name : String)
  | pthread_join (name : String)
  deriving DecidableEq, Repr

/-- How a function that may call `exit` ends. -/
inductive Outcome (α : Type) where
  | returned (a : α)
  | exited (status : Int)
  deriving DecidableEq

/-- How the process ends: `exit(status)` or `return status` from `main`, or
`abort` from a failed `assert`. -/
inductive Termination where
  | exit (status : Int)
  | abort
  deriving DecidableEq, Repr

/-- `EXIT_FAILURE` of `stdlib.h`. -/
def EXIT_FAILURE : Int := 1

/-- `EEXIST` of `errno.h`. -/
def EEXIST : Int := 17

/-- What `pidfile_open` hands back: a handle, or `NULL` with `errno` set and,
for `EEXIST`, the pid of the holder stored through the third argument. -/
inductive PidfileOpen where
  | handle
  | null (errno : Int) (otherpid : Int)
  deriving DecidableEq, Repr

/-! ## core_opt -/

/-- The `while ((opt = getopt(...)) != -1) switch (opt)` loop of `core_opt`
over the values `getopt` returns: every case stores into the configuration,
`h` prints the usage text and exits with status 1, and a value without a case
of its own (the error return `?` among them) falls through the `switch`. -/
def core_opt_loop (argv0 : String) :
    agent_config_t → List GetoptRet → List Event × Outcome agent_config_t
  | cfg, [] => ([], .returned cfg)
  | cfg, r :: rs =>
    if r.code = 'p' then core_opt_loop argv0 { cfg with p_arg := r.optarg } rs
    else if r.code = 'H' then core_opt_loop argv0 { cfg with H_arg := r.optarg } rs
    else if r.code = 'n' then core_opt_loop argv0 { cfg with n_arg := r.optarg } rs
    else if r.code = 'S' then core_opt_loop argv0 { cfg with S_arg := r.optarg } rs
    else if r.code = 'T' then core_opt_loop argv0 { cfg with T_arg := r.optarg } rs
    else if r.code = 't' then
      core_opt_loop argv0 { cfg with timeout := strtod (r.optarg.getD "") } rs
    else if r.code = 'c' then core_opt_loop argv0 { cfg with c_arg := r.optarg } rs
    else if r.code = 'd' then core_opt_loop argv0 { cfg with d_arg := 1 } rs
    else if r.code = 'h' then ([Event.usage argv0], .exited 1)
    else core_opt_loop argv0 cfg rs

/-- The defaults `core_opt` stores before it scans the options;
`persist_dir` and `html_dir` stand for the macros `AGENT_PERSIST_DIR` and
`AGENT_HTML_DIR`, which the build defines. -/
def core_opt_defaults (persist_dir html_dir : String) : agent_config_t :=
  { n_arg := none
    S_arg := none
    T_arg := none
    c_arg := some "6085"
    timeout := .finite 5
    d_arg := 0
    p_arg := some persist_dir
    H_arg := some html_dir }

/-- The function `core_opt(core, argc, argv)`: stores the defaults, then runs
the option loop over `argv[1..]`; `argv[0]` is the name the usage text shows. -/
def core_opt (permute : Bool) (persist_dir html_dir : String) (core : agent_core_t)
    (argv : List String) : List Event × Outcome agent_core_t :=
  match core_opt_loop (argv.headD "") (core_opt_defaults persist_dir html_dir)
      (getopt_all permute argv.tail) with
  | (tr, .returned cfg) => (tr, .returned { core with config := cfg })
  | (tr, .exited status) => (tr, .exited status)

/-! ## Plugins -/

/-- What lies outside `main.c` and decides a run. -/
structure Env where
  /-- The process arguments, `argv[0]` first. -/
  argv : List String
  /-- Whether `getopt` permutes (GNU) or stops at the first non-option. -/
  permute : Bool
  /-- The macro `AGENT_PERSIST_DIR`. -/
  persist_dir : String
  /-- The macro `AGENT_HTML_DIR`. -/
  html_dir : String
  /-- The result of `pidfile_open`. -/
  pidfile : PidfileOpen
  /-- The value `daemon(0,0)` returns in the process that goes on. -/
  daemon_ret : Int
  /-- Whether the init entry point of the named plugin stores a start entry
  point in its record. -/
  installs_start : String → Bool
  /-- Whether the start entry point of the named plugin records a
  worker-thread handle. -/
  spawns_thread : String → Bool

/-- The core together with the calls made so far. -/
structure State where
  core : agent_core_t
  trace : List Event

/-- Records one call. -/
def State.emit (s : State) (e : Event) : State :=
  { s with trace := s.trace ++ [e] }

/-- Modelled from the spec: `plugin_alloc` (its source file is not among the
sources).  "register(name) creates a new record in Allocated state, appends
it to the ordered collection": the new record has no start entry point and no
worker handle yet. -/
def plugin_alloc (name : String) (s : State) : State :=
  { core := { s.core with
                plugins := s.core.plugins ++ [{ name := name, start := none, thread := false }] }
    trace := s.trace ++ [Event.plugin_alloc name] }

/-- Modelled from the spec: the init entry points `pingd_init` ... `vlog_init`
(the plugin sources are not among the sources).  The init entry point of
plugin `name` sets up that plugin only: in its own record it stores the start
entry point, when the plugin has one. -/
def init_record (env : Env) (name : String) (p : agent_plugin_t) : agent_plugin_t :=
  if p.name = name ∧ env.installs_start name = true then { p with start := some name } else p

/-- The call of the init entry point of plugin `name`, with the shared core. -/
def plugin_init (env : Env) (name : String) (s : State) : State :=
  { core := { s.core with plugins := s.core.plugins.map (init_record env name) }
    trace := s.trace ++ [Event.init name] }

/-- The function `core_alloc_plugins`. -/
def core_alloc_plugins (s : State) : State :=
  s |> plugin_alloc "pingd"
    |> plugin_alloc "logd"
    |> plugin_alloc "vadmin"
    |> plugin_alloc "httpd"
    |> plugin_alloc "echo"
    |> plugin_alloc "status"
    |> plugin_alloc "vcl"
    |> plugin_alloc "html"
    |> plugin_alloc "params"
    |> plugin_alloc "ban"
    |> plugin_alloc "varnishstat"
    |> plugin_alloc "vlog"

/-- The function `core_plugins` (its return value 1 is not used). -/
def core_plugins (env : Env) (s : State) : State :=
  s |> plugin_init env "pingd"
    |> plugin_init env "logd"
    |> plugin_init env "vadmin"
    |> plugin_init env "httpd"
    |> plugin_init env "echo"
    |> plugin_init env "status"
    |> plugin_init env "vcl"
    |> plugin_init env "html"
    |> plugin_init env "params"
    |> plugin_init env "ban"
    |> plugin_init env "varnishstat"
    |> plugin_init env "vlog"

/-! ## main -/

/-- The start loop of `main`, walking the list from `core.plugins`: prints the
name (format `%s `) and, when the record holds a start entry point, calls it with the core
and `plug->name`.  Modelled from the spec: a start entry point that spawns a
worker records the handle in its own record before it returns.  Yields the
records after the loop and the calls made. -/
def start_loop (env : Env) : List agent_plugin_t → List agent_plugin_t × List Event
  | [] => ([], [])
  | plug :: next =>
    match plug.start with
    | some entry =>
      ({ plug with thread := plug.thread || env.spawns_thread entry } :: (start_loop env next).1,
        Event.printf "%s " [plug.name] :: Event.start entry plug.name :: (start_loop env next).2)
    | none =>
      (plug :: (start_loop env next).1, Event.printf "%s " [plug.name] :: (start_loop env next).2)

/-- The join loop of `main`: `pthread_join` on every record whose thread
handle is set, walking the list from `core.plugins`. -/
def join_loop : List agent_plugin_t → List Event
  | [] => []
  | plug :: next =>
    if plug.thread = true then Event.pthread_join plug.name :: join_loop next
    else join_loop next

/-- A finished run: the calls made and how the process ended. -/
structure Run where
  trace : List Event
  result : Termination
  deriving DecidableEq, Repr

/-- The run `r` made after the calls `calls`. -/
def Run.after (calls : List Event) (r : Run) : Run :=
  { trace := calls ++ r.trace, result := r.result }

/-- The end of `main`, from `printf("Starting plugins: ")` to `return 0`. -/
def main_start (env : Env) (core : agent_core_t) : Run :=
  { trace := [Event.printf "Starting plugins: " [], Event.pidfile_write]
      ++ (start_loop env core.plugins).2
      ++ [Event.printf "\n" []]
      ++ join_loop (start_loop env core.plugins).1
      ++ [Event.pidfile_remove]
    result := .exit 0 }

/-- The `if (!core.config->d_arg)` statement of `main` and what follows it. -/
def main_daemonize (env : Env) (core : agent_core_t) : Run :=
  if core.config.d_arg = 0 then
    if env.daemon_ret = -1 then
      { trace := [Event.printf "Plugins initialized. Forking.\n" [], Event.daemon,
          Event.warn "Cannot daemonize", Event.pidfile_remove]
        result := .exit EXIT_FAILURE }
    else if env.daemon_ret = 0 then
      (main_start env core).after [Event.printf "Plugins initialized. Forking.\n" [], Event.daemon]
    else
      { trace := [Event.printf "Plugins initialized. Forking.\n" [], Event.daemon]
        result := .abort }
  else
    (main_start env core).after
      [Event.printf "Plugins initialized. No -d argument so not forking.\n" []]

/-- The `pidfile_open` call of `main`, its error handling, and what follows. -/
def main_pidfile (env : Env) (core : agent_core_t) : Run :=
  match env.pidfile with
  | .handle => (main_daemonize env core).after [Event.pidfile_open]
  | .null errno otherpid =>
    if errno = EEXIST then
      { trace := [Event.pidfile_open, Event.errx EXIT_FAILURE otherpid]
        result := .exit EXIT_FAILURE }
    else
      (main_daemonize env core).after
        [Event.pidfile_open, Event.warn "Cannot open or create pidfile"]

/-- The configuration as `calloc` leaves it. -/
def calloc_config : agent_config_t :=
  { n_arg := none, S_arg := none, T_arg := none, c_arg := none, timeout := .finite 0,
    d_arg := 0, p_arg := none, H_arg := none }

/-- The function `main`: allocate the plugins, parse the options, initialise
the plugins, open the pidfile, daemonize unless `-d` was given, start the
plugins, join their workers.  (`calloc` is taken to succeed.) -/
def main (env : Env) : Run :=
  let s := core_alloc_plugins { core := { config := calloc_config, plugins := [] }, trace := [] }
  match core_opt env.permute env.persist_dir env.html_dir s.core env.argv with
  | (tr, .exited status) =>
    { trace := s.trace ++ Event.core_opt :: tr, result := .exit status }
  | (tr, .returned core) =>
    let s1 := core_plugins env { core := core, trace := s.trace ++ Event.core_opt :: tr }
    (main_pidfile env s1.core).after s1.trace

/-! ## The command-line language and the documented resolution -/

/-- One option occurrence on the command line: a recognised flag together
with its argument. -/
inductive CliOpt where
  | p (dir : String)
  | H (dir : String)
  | n (name : String)
  | S (file : String)
  | T (hostport : String)
  | t (seconds : String)
  | c (port : String)
  | d
  | h
  deriving DecidableEq, Repr

/-- The flag character of an occurrence. -/
def CliOpt.flag : CliOpt → Char
  | .p _ => 'p'
  | .H _ => 'H'
  | .n _ => 'n'
  | .S _ => 'S'
  | .T _ => 'T'
  | .t _ => 't'
  | .c _ => 'c'
  | .d => 'd'
  | .h => 'h'

/-- The argument of an occurrence, for the flags that take one. -/
def CliOpt.arg : CliOpt → Option String
  | .p a => some a
  | .H a => some a
  | .n a => some a
  | .S a => some a
  | .T a => some a
  | .t a => some a
  | .c a => some a
  | .d => none
  | .h => none

/-- The value `getopt` returns for an occurrence. -/
def CliOpt.ret (o : CliOpt) : GetoptRet := GetoptRet.opt o.flag o.arg

/-- The `argv` elements of one occurrence: the flag, then its argument as an
element of its own. -/
def CliOpt.render (o : CliOpt) : List String :=
  match o.arg with
  | some a => [String.mk ['-', o.flag], a]
  | none => [String.mk ['-', o.flag]]

/-- The `argv` elements (after `argv[0]`) of a list of occurrences. -/
def renderArgs : List CliOpt → List String
  | [] => []
  | o :: os => o.render ++ renderArgs os

/-- Overwrites the field an occurrence stands for with the supplied value;
`-t` stores the numeric value of its argument, `-d` sets the debug flag. -/
def overwrite (cfg : agent_config_t) : CliOpt → agent_config_t
  | .p a => { cfg with p_arg := some a }
  | .H a => { cfg with H_arg := some a }
  | .n a => { cfg with n_arg := some a }
  | .S a => { cfg with S_arg := some a }
  | .T a => { cfg with T_arg := some a }
  | .t a => { cfg with timeout := strtod a }
  | .c a => { cfg with c_arg := some a }
  | .d => { cfg with d_arg := 1 }
  | .h => cfg

/-- The argument of the last occurrence of the flag `f`, if `f` is given. -/
def lastArg (f : Char) (opts : List CliOpt) : Option String :=
  (opts.filterMap (fun o => if o.flag = f then o.arg else none)).getLast?

/-- The configuration the specification documents for a command line: every
field holds its default unless its flag is given, and then holds the supplied
value (the numeric value, for `-t`). -/
def spec_config (persist_dir html_dir : String) (opts : List CliOpt) : agent_config_t :=
  { n_arg := lastArg 'n' opts
    S_arg := lastArg 'S' opts
    T_arg := lastArg 'T' opts
    c_arg := some ((lastArg 'c' opts).getD "6085")
    timeout :=
      match lastArg 't' opts with
      | some a => strtod a
      | none => .finite 5
    d_arg := if CliOpt.d ∈ opts then 1 else 0
    p_arg := some ((lastArg 'p' opts).getD persist_dir)
    H_arg := some ((lastArg 'H' opts).getD html_dir) }

/-- Whether a text (after white space and sign) begins the way a number
does for `strtod`: with a digit, with a point and a digit, or with `inf` or
`nan` in any case. -/
def numericStart : List Char → Bool
  | [] => false
  | c :: r =>
    c.isDigit
      || (c = '.' && (match r with
                      | d :: _ => d.isDigit
                      | [] => false))
      || ((c :: r).take 3).map Char.toLower = ['i', 'n', 'f']
      || ((c :: r).take 3).map Char.toLower = ['n', 'a', 'n']

/-- The twelve plugin names, in the order `core_alloc_plugins` registers
them. -/
def plugin_names : List String :=
  ["pingd", "logd", "vadmin", "httpd", "echo", "status", "vcl", "html", "params", "ban",
    "varnishstat", "vlog"]

/-- Every call satisfying `p` is made before every call satisfying `q`. -/
def precedes (tr : List Event) (p q : Event → Prop) : Prop :=
  ∀ (i j : Nat) (a b : Event), tr[i]? = some a → tr[j]? = some b → p a → q b → i < j

/-- The names passed to `plugin_alloc`, in call order. -/
def allocCalls (tr : List Event) : List String :=
  tr.filterMap (fun e => match e with
    | .plugin_alloc n => some n
    | _ => none)

/-- The plugins whose init entry point is called, in call order. -/
def initCalls (tr : List Event) : List String :=
  tr.filterMap (fun e => match e with
    | .init n => some n
    | _ => none)

/-- The start entry points called, each with the name it is passed, in call
order. -/
def startCalls (tr : List Event) : List (String × String) :=
  tr.filterMap (fun e => match e with
    | .start entry n => some (entry, n)
    | _ => none)

/-- The plugins whose worker is joined, in call order. -/
def joinCalls (tr : List Event) : List String :=
  tr.filterMap (fun e => match e with
    | .pthread_join n => some n
    | _ => none)

/-- The configuration `core_opt` leaves in the core, when it returns. -/
def resolved (env : Env) : Option agent_config_t :=
  match (core_opt env.permute env.persist_dir env.html_dir
      { config := calloc_config, plugins := [] } env.argv).2 with
  | .returned core => some core.config
  | .exited _ => none

/-- The plugin records when `main` enters its start loop. -/
def registry (env : Env) : List agent_plugin_t :=
  (core_plugins env (core_alloc_plugins
    { core := { config := calloc_config, plugins := [] }, trace := [] })).core.plugins

/-- The place of a call in the sequence of `main`. -/
def phase : Event → Nat
  | .plugin_alloc _ => 0
  | .core_opt => 1
  | .usage _ => 2
  | .init _ => 3
  | .pidfile_open => 4
  | .errx _ _ => 5
  | .warn msg => if msg = "Cannot daemonize" then 8 else 5
  | .printf format _ =>
    if format = "Starting plugins: " then 9
    else if format = "%s " then 11
    else if format = "\n" then 12
    else 6
  | .daemon => 7
  | .pidfile_write => 10
  | .start _ _ => 11
  | .pthread_join _ => 13
  | .pidfile_remove => 14

/-- The calls of `tr` come in the order of `main`, none of them placed
before `k`. -/
def ordered_from (k : Nat) (tr : List Event) : Prop :=
  tr.Pairwise (fun a b => phase a ≤ phase b) ∧ ∀ e ∈ tr, k ≤ phase e

/-- The record of plugin `n` once it is allocated and initialised. -/
def initialised (env : Env) (n : String) : agent_plugin_t :=
  if env.installs_start n = true then { name := n, start := some n, thread := false }
  else { name := n, start := none, thread := false }

/-- The record of plugin `n` after the start loop. -/
def started (env : Env) (n : String) : agent_plugin_t :=
  if env.installs_start n = true then
    { name := n, start := some n, thread := env.spawns_thread n }
  else { name := n, start := none, thread := false }

/-- The calls `main` makes up to the end of the init phase, when `core_opt`
returns. -/
def init_calls : List Event :=
  plugin_names.map Event.plugin_alloc ++ Event.core_opt :: plugin_names.map Event.init

/-- The calls of the pidfile step when it does not end the run. -/
def guard_calls (env : Env) : List Event :=
  match env.pidfile with
  | .handle => [Event.pidfile_open]
  | .null _ _ => [Event.pidfile_open, Event.warn "Cannot open or create pidfile"]

/-- The calls of the daemonization step when it does not end the run. -/
def daemon_calls (cfg : agent_config_t) : List Event :=
  if cfg.d_arg = 0 then [Event.printf "Plugins initialized. Forking.\n" [], Event.daemon]
  else [Event.printf "Plugins initialized. No -d argument so not forking.\n" []]

/-- A concrete environment for worked runs: GNU `getopt`, the usual
directories, every plugin but `echo` with a start entry point, and `pingd`
and `httpd` spawning a worker. -/
def sample_env (argv : List String) (pidfile : PidfileOpen) (daemon_ret : Int) : Env :=
  { argv := argv
    permute := true
    persist_dir := "/var/lib/varnish-agent"
    html_dir := "/usr/share/varnish-agent/html"
    pidfile := pidfile
    daemon_ret := daemon_ret
    installs_start := fun n => n != "echo"
    spawns_thread := fun n => n == "httpd" || n == "pingd" }

/-! ## Lemmas: getopt on a rendered command line -/

theorem getopt_go_render (permute : Bool) (o : CliOpt) (rest : List String) :
    getopt_go permute none (o.render ++ rest) = o.ret :: getopt_go permute none rest := by
  cases o <;> rfl

theorem getopt_all_render (permute : Bool) (opts : List CliOpt) :
    getopt_all permute (renderArgs opts) = opts.map CliOpt.ret := by
  unfold getopt_all
  induction opts with
  | nil => rfl
  | cons o os ih => simp only [renderArgs, getopt_go_render, ih, List.map_cons]

/-! ## Lemmas: the option loop -/

theorem core_opt_loop_render (argv0 : String) (opts : List CliOpt) :
    ∀ cfg : agent_config_t, CliOpt.h ∉ opts →
      core_opt_loop argv0 cfg (opts.map CliOpt.ret) = ([], .returned (opts.foldl overwrite cfg)) := by
  induction opts with
  | nil => intro cfg _; rfl
  | cons o os ih =>
    intro cfg hh
    have hos : CliOpt.h ∉ os := fun hmem => hh (List.mem_cons_of_mem _ hmem)
    cases o with
    | h => exact absurd (List.mem_cons_self _ _) hh
    | p a => exact ih _ hos
    | H a => exact ih _ hos
    | n a => exact ih _ hos
    | S a => exact ih _ hos
    | T a => exact ih _ hos
    | t a => exact ih _ hos
    | c a => exact ih _ hos
    | d => exact ih _ hos

theorem core_opt_loop_help (argv0 : String) (opts : List CliOpt) :
    ∀ cfg : agent_config_t, CliOpt.h ∈ opts →
      core_opt_loop argv0 cfg (opts.map CliOpt.ret) = ([Event.usage argv0], .exited 1) := by
  induction opts with
  | nil => intro cfg hh; exact absurd hh (List.not_mem_nil _)
  | cons o os ih =>
    intro cfg hh
    cases o with
    | h => rfl
    | p a => exact ih _ (by simpa using hh)
    | H a => exact ih _ (by simpa using hh)
    | n a => exact ih _ (by simpa using hh)
    | S a => exact ih _ (by simpa using hh)
    | T a => exact ih _ (by simpa using hh)
    | t a => exact ih _ (by simpa using hh)
    | c a => exact ih _ (by simpa using hh)
    | d => exact ih _ (by simpa using hh)

/-- Whatever the arguments, the option loop either returns without output or
prints the usage text and exits with status 1. -/
theorem core_opt_loop_cases (argv0 : String) (rs : List GetoptRet) :
    ∀ cfg : agent_config_t,
      (∃ cfg1, core_opt_loop argv0 cfg rs = ([], .returned cfg1))
        ∨ core_opt_loop argv0 cfg rs = ([Event.usage argv0], .exited 1) := by
  induction rs with
  | nil => intro cfg; exact Or.inl ⟨cfg, rfl⟩
  | cons r rs ih =>
    intro cfg
    rw [core_opt_loop]
    by_cases h0 : r.code = 'p'
    · rw [if_pos h0]; exact ih _
    rw [if_neg h0]
    by_cases h1 : r.code = 'H'
    · rw [if_pos h1]; exact ih _
    rw [if_neg h1]
    by_cases h2 : r.code = 'n'
    · rw [if_pos h2]; exact ih _
    rw [if_neg h2]
    by_cases h3 : r.code = 'S'
    · rw [if_pos h3]; exact ih _
    rw [if_neg h3]
    by_cases h4 : r.code = 'T'
    · rw [if_pos h4]; exact ih _
    rw [if_neg h4]
    by_cases h5 : r.code = 't'
    · rw [if_pos h5]; exact ih _
    rw [if_neg h5]
    by_cases h6 : r.code = 'c'
    · rw [if_pos h6]; exact ih _
    rw [if_neg h6]
    by_cases h7 : r.code = 'd'
    · rw [if_pos h7]; exact ih _
    rw [if_neg h7]
    by_cases hh : r.code = 'h'
    · rw [if_pos hh]; exact Or.inr rfl
    rw [if_neg hh]; exact ih _

theorem lastArg_append (f : Char) (l : List CliOpt) (o : CliOpt) :
    lastArg f (l ++ [o]) =
      match (if o.flag = f then o.arg else none) with
      | some a => some a
      | none => lastArg f l := by
  unfold lastArg
  rw [List.filterMap_append]
  cases hsel : (if o.flag = f then o.arg else none) with
  | none => simp [List.filterMap_cons, hsel]
  | some a => simp [List.filterMap_cons, hsel]

theorem spec_config_append (pd hd : String) (l : List CliOpt) (o : CliOpt) :
    spec_config pd hd (l ++ [o]) = overwrite (spec_config pd hd l) o := by
  cases o <;>
    simp [spec_config, lastArg_append, overwrite, CliOpt.flag, CliOpt.arg]

theorem foldl_overwrite (pd hd : String) (opts : List CliOpt) :
    opts.foldl overwrite (core_opt_defaults pd hd) = spec_config pd hd opts := by
  induction opts using List.reverseRecOn with
  | nil => rfl
  | append_singleton l o ih => rw [List.foldl_append, ih, spec_config_append]; rfl

/-! ## Lemmas: strtod -/

theorem takeWhile_nil_of_head {p : Char → Bool} :
    ∀ r : List Char, (match r with
      | d :: _ => p d
      | [] => false) = false → r.takeWhile p = []
  | [], _ => rfl
  | d :: r, h => by simp only at h; simp [List.takeWhile, h]

theorem hexBody_none (c : Char) (r : List Char) (hc : c.isDigit = false) :
    hexBody (c :: r) = none := by
  unfold hexBody
  split
  · rename_i x r1 heq
    have h0 : c = '0' := by injection heq
    rw [h0] at hc
    exact absurd hc (by decide)
  · rfl

theorem decBody_none (c : Char) (r : List Char) (hc : c.isDigit = false)
    (hdot : (c = '.' && (match r with
      | d :: _ => d.isDigit
      | [] => false)) = false) :
    decBody (c :: r) = none := by
  have hdrop : (c :: r).dropWhile Char.isDigit = c :: r := by simp [List.dropWhile, hc]
  have htake : (c :: r).takeWhile Char.isDigit = [] := by simp [List.takeWhile, hc]
  unfold decBody scanMantissa
  rw [hdrop, htake]
  by_cases hp : c = '.'
  · subst hp
    have hr : r.takeWhile Char.isDigit = [] := by
      apply takeWhile_nil_of_head
      simpa using hdot
    simp [hr]
  · split
    · rename_i heq
      split at heq
      · rename_i r1 heq2
        exact absurd (by injection heq2) hp
      · simp at heq
    · rfl

theorem strtod_body_none (cs : List Char) (h : numericStart cs = false) :
    strtod_body cs = none := by
  cases cs with
  | nil => rfl
  | cons c r =>
    simp only [numericStart, Bool.or_eq_false_iff, decide_eq_false_iff_not] at h
    obtain ⟨⟨⟨hc, hdot⟩, hinf⟩, hnan⟩ := h
    unfold strtod_body
    rw [hexBody_none c r hc, decBody_none c r hc hdot]
    simp only [infnanBody, hinf, hnan, if_false]

/-- A text that does not begin like a number converts to zero. -/
theorem strtod_nonnumeric (s : String) (h : numericStart (afterSign s) = false) :
    strtod s = .finite 0 := by
  unfold strtod
  rw [strtod_body_none _ h]

theorem lastArg_absent (f : Char) (opts : List CliOpt) (h : ∀ o ∈ opts, o.flag ≠ f) :
    lastArg f opts = none := by
  unfold lastArg
  have hnil : opts.filterMap (fun o => if o.flag = f then o.arg else none) = [] := by
    rw [List.filterMap_eq_nil_iff]
    intro o ho
    rw [if_neg (h o ho)]
  rw [hnil]
  rfl

theorem strtod_two_and_a_half : strtod "2.5" = .finite (5 / 2) := by
  simp [strtod, afterSign, skipSpace, strtod_body, hexBody, decBody, scanMantissa, isspace,
    scaled, scanExponent, digitsVal, digitVal]
  norm_num

theorem core_opt_render (permute : Bool) (pd hd : String) (core : agent_core_t)
    (argv0 : String) (opts : List CliOpt) (hh : CliOpt.h ∉ opts) :
    core_opt permute pd hd core (argv0 :: renderArgs opts)
      = ([], .returned { core with config := spec_config pd hd opts }) := by
  unfold core_opt
  rw [List.tail_cons, getopt_all_render, core_opt_loop_render _ _ _ hh, foldl_overwrite]

theorem core_opt_render_help (permute : Bool) (pd hd : String) (core : agent_core_t)
    (argv0 : String) (opts : List CliOpt) (hh : CliOpt.h ∈ opts) :
    core_opt permute pd hd core (argv0 :: renderArgs opts)
      = ([Event.usage argv0], .exited 1) := by
  unfold core_opt
  rw [List.tail_cons, getopt_all_render, core_opt_loop_help _ _ _ hh]
  rfl

/-! ## Lemmas: the shape of a run -/

theorem allocated_state :
    core_alloc_plugins { core := { config := calloc_config, plugins := [] }, trace := [] }
      = { core := { config := calloc_config
                    plugins := plugin_names.map
                      (fun n => { name := n, start := none, thread := false }) }
          trace := plugin_names.map Event.plugin_alloc } := rfl

theorem init_record_other (env : Env) (name n : String) (st : Option String) (th : Bool)
    (h : n ≠ name) :
    init_record env name { name := n, start := st, thread := th }
      = { name := n, start := st, thread := th } := by
  simp [init_record, h]

theorem init_record_self (env : Env) (n : String) :
    init_record env n { name := n, start := none, thread := false } = initialised env n := by
  by_cases h : env.installs_start n = true <;> simp [init_record, initialised, h]

theorem init_record_initialised (env : Env) (name n : String) (h : n ≠ name) :
    init_record env name (initialised env n) = initialised env n := by
  by_cases hi : env.installs_start n = true <;> simp [init_record, initialised, hi, h]

theorem core_plugins_state (env : Env) (cfg : agent_config_t) (tr : List Event) :
    core_plugins env
        { core := { config := cfg
                    plugins := plugin_names.map
                      (fun n => { name := n, start := none, thread := false }) }
          trace := tr }
      = { core := { config := cfg, plugins := plugin_names.map (initialised env) }
          trace := tr ++ plugin_names.map Event.init } := by
  simp (disch := decide) only [core_plugins, plugin_init, plugin_names, List.map_cons, List.map_nil,
    init_record_self, init_record_initialised, init_record_other, List.append_assoc,
    List.cons_append, List.nil_append]

theorem core_opt_cases (permute : Bool) (pd hd : String) (core : agent_core_t)
    (argv : List String) :
    (∃ cfg, core_opt permute pd hd core argv = ([], .returned { core with config := cfg }))
      ∨ core_opt permute pd hd core argv = ([Event.usage (argv.headD "")], .exited 1) := by
  unfold core_opt
  rcases core_opt_loop_cases (argv.headD "") (getopt_all permute argv.tail)
      (core_opt_defaults pd hd) with ⟨cfg, h⟩ | h
  · left; exact ⟨cfg, by rw [h]⟩
  · right; rw [h]

theorem core_opt_core_irrelevant (permute : Bool) (pd hd : String) (core1 core2 : agent_core_t)
    (argv : List String) :
    (∃ cfg, core_opt permute pd hd core1 argv = ([], .returned { core1 with config := cfg })
        ∧ core_opt permute pd hd core2 argv = ([], .returned { core2 with config := cfg }))
      ∨ (core_opt permute pd hd core1 argv = ([Event.usage (argv.headD "")], .exited 1)
        ∧ core_opt permute pd hd core2 argv = ([Event.usage (argv.headD "")], .exited 1)) := by
  unfold core_opt
  rcases core_opt_loop_cases (argv.headD "") (getopt_all permute argv.tail)
      (core_opt_defaults pd hd) with ⟨cfg, h⟩ | h
  · left; exact ⟨cfg, by rw [h], by rw [h]⟩
  · right; rw [h]; exact ⟨rfl, rfl⟩

theorem resolved_cases (env : Env) :
    (∃ cfg, resolved env = some cfg ∧ ∀ core,
        core_opt env.permute env.persist_dir env.html_dir core env.argv
          = ([], .returned { core with config := cfg }))
      ∨ (resolved env = none ∧ ∀ core,
        core_opt env.permute env.persist_dir env.html_dir core env.argv
          = ([Event.usage (env.argv.headD "")], .exited 1)) := by
  rcases core_opt_cases env.permute env.persist_dir env.html_dir
      { config := calloc_config, plugins := [] } env.argv with ⟨cfg, h⟩ | h
  · left
    refine ⟨cfg, by simp [resolved, h], fun core => ?_⟩
    rcases core_opt_core_irrelevant env.permute env.persist_dir env.html_dir
      { config := calloc_config, plugins := [] } core env.argv with ⟨cfg1, h1, h2⟩ | ⟨h1, _⟩
    · rw [h] at h1
      have hc : cfg = cfg1 := by simpa using h1
      rw [hc]; exact h2
    · rw [h] at h1; simp at h1
  · right
    refine ⟨by simp [resolved, h], fun core => ?_⟩
    rcases core_opt_core_irrelevant env.permute env.persist_dir env.html_dir
      { config := calloc_config, plugins := [] } core env.argv with ⟨cfg1, h1, _⟩ | ⟨_, h2⟩
    · rw [h] at h1; simp at h1
    · exact h2

theorem main_of_exited (env : Env) (h : resolved env = none) :
    main env = { trace := plugin_names.map Event.plugin_alloc
                    ++ [Event.core_opt, Event.usage (env.argv.headD "")]
                 result := .exit 1 } := by
  rcases resolved_cases env with ⟨cfg, hc, _⟩ | ⟨_, hx⟩
  · rw [h] at hc; exact absurd hc (by simp)
  · simp only [main, allocated_state, hx]

theorem main_of_returned (env : Env) (cfg : agent_config_t) (h : resolved env = some cfg) :
    main env = (main_pidfile env
        { config := cfg, plugins := plugin_names.map (initialised env) }).after
      (plugin_names.map Event.plugin_alloc ++ Event.core_opt :: plugin_names.map Event.init) := by
  rcases resolved_cases env with ⟨cfg1, hc, hx⟩ | ⟨hn, _⟩
  · rw [h] at hc
    have hcc : cfg = cfg1 := by simpa using hc
    subst hcc
    simp only [main, allocated_state, hx, core_plugins_state, List.append_nil,
      List.cons_append, List.nil_append, List.append_assoc]
  · rw [h] at hn; exact absurd hn (by simp)

/-! ## Lemmas: the order of the calls -/

theorem ordered_from_nil (k : Nat) : ordered_from k [] :=
  ⟨List.Pairwise.nil, fun _ he => absurd he (List.not_mem_nil _)⟩

theorem ordered_from_cons {k m : Nat} {e : Event} {l : List Event} (he : phase e = m)
    (hk : m ≤ k) (hl : ordered_from k l) : ordered_from m (e :: l) := by
  refine ⟨List.pairwise_cons.2 ⟨fun a ha => ?_, hl.1⟩, fun a ha => ?_⟩
  · have := hl.2 a ha
    omega
  · rcases List.mem_cons.1 ha with h | h
    · subst h; omega
    · have := hl.2 a h
      omega

theorem ordered_from_append {k m : Nat} {l r : List Event} (hl : ∀ e ∈ l, phase e = m)
    (hk : m ≤ k) (hr : ordered_from k r) : ordered_from m (l ++ r) := by
  induction l with
  | nil => exact ⟨hr.1, fun e he => le_trans hk (hr.2 e he)⟩
  | cons a l ih =>
    exact ordered_from_cons (hl a (List.mem_cons_self _ _)) (le_refl _)
      (ih (fun e he => hl e (List.mem_cons_of_mem _ he)))

theorem precedes_of_ordered {tr : List Event} {k0 : Nat} (h : ordered_from k0 tr)
    (p q : Event → Prop) (k : Nat) (hp : ∀ a, p a → phase a ≤ k) (hq : ∀ b, q b → k < phase b) :
    precedes tr p q := by
  intro i j a b hi hj pa qb
  by_contra hij
  have hji : j ≤ i := Nat.le_of_not_lt hij
  have ha := hp a pa
  have hb := hq b qb
  rcases Nat.lt_or_eq_of_le hji with hlt | heq
  · obtain ⟨hi1, hi2⟩ := List.getElem?_eq_some.1 hi
    obtain ⟨hj1, hj2⟩ := List.getElem?_eq_some.1 hj
    have hrel := List.pairwise_iff_getElem.1 h.1 j i hj1 hi1 hlt
    rw [hi2, hj2] at hrel
    omega
  · subst heq
    rw [hi] at hj
    have hab : a = b := by simpa using hj
    subst hab
    omega

theorem phase_start_loop (env : Env) :
    ∀ ps : List agent_plugin_t, ∀ e ∈ (start_loop env ps).2, phase e = 11
  | [], e, he => absurd he (List.not_mem_nil _)
  | plug :: next, e, he => by
    unfold start_loop at he
    split at he
    · simp only [List.mem_cons] at he
      rcases he with h | h | h
      · subst h; rfl
      · subst h; rfl
      · exact phase_start_loop env next e h
    · simp only [List.mem_cons] at he
      rcases he with h | h
      · subst h; rfl
      · exact phase_start_loop env next e h

theorem phase_join_loop :
    ∀ ps : List agent_plugin_t, ∀ e ∈ join_loop ps, phase e = 13
  | [], e, he => absurd he (List.not_mem_nil _)
  | plug :: next, e, he => by
    unfold join_loop at he
    split at he
    · simp only [List.mem_cons] at he
      rcases he with h | h
      · subst h; rfl
      · exact phase_join_loop next e h
    · exact phase_join_loop next e he

theorem ordered_main_start (env : Env) (core : agent_core_t) :
    ordered_from 9 (main_start env core).trace := by
  simp only [main_start, List.append_assoc, List.cons_append, List.nil_append]
  refine ordered_from_cons (k := 10) rfl (by decide) ?_
  refine ordered_from_cons (k := 11) rfl (by decide) ?_
  refine ordered_from_append (k := 12) (phase_start_loop env _) (by decide) ?_
  refine ordered_from_cons (k := 13) rfl (by decide) ?_
  refine ordered_from_append (k := 14) (phase_join_loop _) (by decide) ?_
  exact ordered_from_cons (k := 14) rfl (by decide) (ordered_from_nil _)

theorem ordered_main_daemonize (env : Env) (core : agent_core_t) :
    ordered_from 6 (main_daemonize env core).trace := by
  unfold main_daemonize
  split_ifs
  · exact ordered_from_cons (k := 7) rfl (by decide) (ordered_from_cons (k := 8) rfl (by decide)
      (ordered_from_cons (k := 14) rfl (by decide)
        (ordered_from_cons (k := 14) rfl (by decide) (ordered_from_nil _))))
  · exact ordered_from_cons (k := 7) rfl (by decide) (ordered_from_cons (k := 9) rfl (by decide)
      (ordered_main_start env core))
  · exact ordered_from_cons (k := 7) rfl (by decide) (ordered_from_cons (k := 7) rfl (by decide)
      (ordered_from_nil _))
  · exact ordered_from_cons (k := 9) rfl (by decide) (ordered_main_start env core)

theorem ordered_main_pidfile (env : Env) (core : agent_core_t) :
    ordered_from 4 (main_pidfile env core).trace := by
  unfold main_pidfile
  split
  · exact ordered_from_cons (k := 6) rfl (by decide) (ordered_main_daemonize env core)
  · split_ifs
    · exact ordered_from_cons (k := 5) rfl (by decide) (ordered_from_cons (k := 5) rfl (by decide)
        (ordered_from_nil _))
    · exact ordered_from_cons (k := 5) rfl (by decide) (ordered_from_cons (k := 6) rfl (by decide)
        (ordered_main_daemonize env core))

theorem phase_allocs : ∀ e ∈ plugin_names.map Event.plugin_alloc, phase e = 0 := by
  intro e he
  obtain ⟨n, _, rfl⟩ := List.mem_map.1 he
  rfl

theorem phase_inits : ∀ e ∈ plugin_names.map Event.init, phase e = 3 := by
  intro e he
  obtain ⟨n, _, rfl⟩ := List.mem_map.1 he
  rfl

/-- The calls of every run come in the order of `main`. -/
theorem ordered_main (env : Env) : ordered_from 0 (main env).trace := by
  rcases resolved_cases env with ⟨cfg, hc, _⟩ | ⟨hn, _⟩
  · rw [main_of_returned env cfg hc]
    simp only [Run.after, List.append_assoc, List.cons_append]
    refine ordered_from_append (k := 1) phase_allocs (by decide) ?_
    refine ordered_from_cons (k := 3) rfl (by decide) ?_
    exact ordered_from_append (k := 4) phase_inits (by decide) (ordered_main_pidfile env _)
  · rw [main_of_exited env hn]
    refine ordered_from_append (k := 1) phase_allocs (by decide) ?_
    exact ordered_from_cons (k := 2) rfl (by decide) (ordered_from_cons (k := 2) rfl (by decide)
      (ordered_from_nil _))

/-! ## Lemmas: the calls of the loops -/

theorem registry_eq (env : Env) : registry env = plugin_names.map (initialised env) := by
  unfold registry
  rw [allocated_state, core_plugins_state]

theorem not_mem_of_phase {l : List Event} {k : Nat} {e : Event} (h : ∀ x ∈ l, phase x = k)
    (he : phase e ≠ k) : e ∉ l :=
  fun hmem => he (h e hmem)

theorem allocCalls_nil_of_phase {l : List Event} (h : ∀ e ∈ l, phase e ≠ 0) :
    allocCalls l = [] := by
  unfold allocCalls
  rw [List.filterMap_eq_nil_iff]
  intro e he
  cases e <;> first
    | rfl
    | exact absurd rfl (h _ he)

theorem initCalls_nil_of_phase {l : List Event} (h : ∀ e ∈ l, phase e ≠ 3) :
    initCalls l = [] := by
  unfold initCalls
  rw [List.filterMap_eq_nil_iff]
  intro e he
  cases e <;> first
    | rfl
    | exact absurd rfl (h _ he)

theorem startCalls_nil_of_phase {l : List Event} (h : ∀ e ∈ l, phase e ≠ 11) :
    startCalls l = [] := by
  unfold startCalls
  rw [List.filterMap_eq_nil_iff]
  intro e he
  cases e <;> first
    | rfl
    | exact absurd rfl (h _ he)

theorem joinCalls_nil_of_phase {l : List Event} (h : ∀ e ∈ l, phase e ≠ 13) :
    joinCalls l = [] := by
  unfold joinCalls
  rw [List.filterMap_eq_nil_iff]
  intro e he
  cases e <;> first
    | rfl
    | exact absurd rfl (h _ he)

theorem start_loop_records (env : Env) :
    ∀ ns : List String,
      (start_loop env (ns.map (initialised env))).1 = ns.map (started env)
  | [] => rfl
  | n :: ns => by
    have ih := start_loop_records env ns
    by_cases h : env.installs_start n = true
    · simp [start_loop, initialised, started, h, ih]
    · simp [start_loop, initialised, started, h, ih]

theorem start_loop_calls (env : Env) :
    ∀ ns : List String,
      startCalls (start_loop env (ns.map (initialised env))).2
        = (ns.filter env.installs_start).map (fun n => (n, n))
  | [] => rfl
  | n :: ns => by
    have ih := start_loop_calls env ns
    unfold startCalls at ih ⊢
    by_cases h : env.installs_start n = true
    · simp [start_loop, initialised, h, ih]
    · simp [start_loop, initialised, h, ih]

theorem start_loop_calls_registry (env : Env) :
    ∀ ps : List agent_plugin_t,
      startCalls (start_loop env ps).2
        = ps.filterMap (fun p => p.start.map (fun entry => (entry, p.name)))
  | [] => rfl
  | p :: ps => by
    have ih := start_loop_calls_registry env ps
    unfold startCalls at ih ⊢
    cases hs : p.start with
    | none => simp [start_loop, hs, ih]
    | some entry => simp [start_loop, hs, ih]

theorem join_loop_calls :
    ∀ ps : List agent_plugin_t,
      joinCalls (join_loop ps) = (ps.filter (fun p => p.thread)).map (fun p => p.name)
  | [] => rfl
  | p :: ps => by
    have ih := join_loop_calls ps
    unfold joinCalls at ih ⊢
    by_cases h : p.thread = true
    · simp [join_loop, h, ih]
    · simp [join_loop, h, ih]

theorem join_loop_nil_of_no_thread :
    ∀ ps : List agent_plugin_t, (∀ p ∈ ps, p.thread = false) → join_loop ps = []
  | [], _ => rfl
  | p :: ps, h => by
    have hp : p.thread = false := h p (List.mem_cons_self _ _)
    have ih := join_loop_nil_of_no_thread ps (fun q hq => h q (List.mem_cons_of_mem _ hq))
    simp [join_loop, hp, ih]

theorem started_threads (env : Env) (ns : List String) :
    ((ns.map (started env)).filter (fun p => p.thread)).map (fun p => p.name)
      = ns.filter (fun n => env.installs_start n && env.spawns_thread n) := by
  induction ns with
  | nil => rfl
  | cons n ns ih =>
    by_cases h1 : env.installs_start n = true <;> by_cases h2 : env.spawns_thread n = true <;>
      simp [started, h1, h2, List.filter_cons] at ih ⊢ <;> exact ih

theorem allocCalls_allocs (ns : List String) : allocCalls (ns.map Event.plugin_alloc) = ns := by
  induction ns with
  | nil => rfl
  | cons n ns ih => unfold allocCalls at ih ⊢; simp [ih]

theorem initCalls_inits (ns : List String) : initCalls (ns.map Event.init) = ns := by
  induction ns with
  | nil => rfl
  | cons n ns ih => unfold initCalls at ih ⊢; simp [ih]

/-! ## Lemmas: the five ways a run can go -/

theorem main_paths (env : Env) :
    (resolved env = none
        ∧ main env = { trace := plugin_names.map Event.plugin_alloc
                          ++ [Event.core_opt, Event.usage (env.argv.headD "")]
                       result := .exit 1 })
      ∨ (∃ cfg o, resolved env = some cfg ∧ env.pidfile = .null EEXIST o
        ∧ main env = { trace := init_calls ++ [Event.pidfile_open, Event.errx EXIT_FAILURE o]
                       result := .exit EXIT_FAILURE })
      ∨ (∃ cfg, resolved env = some cfg ∧ (∀ o, env.pidfile ≠ .null EEXIST o)
        ∧ cfg.d_arg = 0 ∧ env.daemon_ret = -1
        ∧ main env = { trace := init_calls ++ guard_calls env
                          ++ [Event.printf "Plugins initialized. Forking.\n" [], Event.daemon,
                              Event.warn "Cannot daemonize", Event.pidfile_remove]
                       result := .exit EXIT_FAILURE })
      ∨ (∃ cfg, resolved env = some cfg ∧ (∀ o, env.pidfile ≠ .null EEXIST o)
        ∧ cfg.d_arg = 0 ∧ env.daemon_ret ≠ -1 ∧ env.daemon_ret ≠ 0
        ∧ main env = { trace := init_calls ++ guard_calls env
                          ++ [Event.printf "Plugins initialized. Forking.\n" [], Event.daemon]
                       result := .abort })
      ∨ (∃ cfg, resolved env = some cfg ∧ (∀ o, env.pidfile ≠ .null EEXIST o)
        ∧ (cfg.d_arg ≠ 0 ∨ env.daemon_ret = 0)
        ∧ main env = { trace := init_calls ++ guard_calls env ++ daemon_calls cfg
                          ++ (main_start env { config := cfg, plugins := registry env }).trace
                       result := .exit 0 }) := by
  rcases resolved_cases env with ⟨cfg, hc, _⟩ | ⟨hn, _⟩
  swap
  · exact Or.inl ⟨hn, main_of_exited env hn⟩
  right
  have hmain := main_of_returned env cfg hc
  rw [← registry_eq] at hmain
  cases hpf : env.pidfile with
  | null errno o =>
    by_cases he : errno = EEXIST
    · subst he
      left
      refine ⟨cfg, o, hc, rfl, ?_⟩
      rw [hmain]
      simp [main_pidfile, hpf, Run.after, init_calls]
    · right
      have hne : ∀ o1, PidfileOpen.null errno o ≠ PidfileOpen.null EEXIST o1 := by
        intro o1 h
        injection h with h1 _
        exact he h1
      by_cases hd : cfg.d_arg = 0
      · by_cases hr : env.daemon_ret = -1
        · left
          refine ⟨cfg, hc, hne, hd, hr, ?_⟩
          rw [hmain]
          simp [main_pidfile, hpf, he, main_daemonize, hd, hr, Run.after, init_calls,
            guard_calls]
        · by_cases hr0 : env.daemon_ret = 0
          · right; right
            refine ⟨cfg, hc, hne, Or.inr hr0, ?_⟩
            rw [hmain]
            simp [main_pidfile, hpf, he, main_daemonize, hd, hr0, Run.after, init_calls,
              guard_calls, daemon_calls, main_start]
          · right; left
            refine ⟨cfg, hc, hne, hd, hr, hr0, ?_⟩
            rw [hmain]
            simp [main_pidfile, hpf, he, main_daemonize, hd, hr, hr0, Run.after, init_calls,
              guard_calls]
      · right; right
        refine ⟨cfg, hc, hne, Or.inl hd, ?_⟩
        rw [hmain]
        simp [main_pidfile, hpf, he, main_daemonize, hd, Run.after, init_calls,
          guard_calls, daemon_calls, main_start]
  | handle =>
    right
    have hne : ∀ o1, PidfileOpen.handle ≠ PidfileOpen.null EEXIST o1 := by
      intro o1 h
      cases h
    by_cases hd : cfg.d_arg = 0
    · by_cases hr : env.daemon_ret = -1
      · left
        refine ⟨cfg, hc, hne, hd, hr, ?_⟩
        rw [hmain]
        simp [main_pidfile, hpf, main_daemonize, hd, hr, Run.after, init_calls, guard_calls]
      · by_cases hr0 : env.daemon_ret = 0
        · right; right
          refine ⟨cfg, hc, hne, Or.inr hr0, ?_⟩
          rw [hmain]
          simp [main_pidfile, hpf, main_daemonize, hd, hr0, Run.after, init_calls,
            guard_calls, daemon_calls, main_start]
        · right; left
          refine ⟨cfg, hc, hne, hd, hr, hr0, ?_⟩
          rw [hmain]
          simp [main_pidfile, hpf, main_daemonize, hd, hr, hr0, Run.after, init_calls,
            guard_calls]
    · right; right
      refine ⟨cfg, hc, hne, Or.inl hd, ?_⟩
      rw [hmain]
      simp [main_pidfile, hpf, main_daemonize, hd, Run.after, init_calls,
        guard_calls, daemon_calls, main_start]

/-! ## Lemmas: permuting the options -/

theorem getLast?_perm_of_all_eq {α : Type} {l l1 : List α} (hp : l.Perm l1)
    (hall : ∀ x ∈ l, ∀ y ∈ l, x = y) : l.getLast? = l1.getLast? := by
  cases h : l.getLast? with
  | none =>
    have hl : l = [] := List.getLast?_eq_none_iff.1 h
    subst hl
    rw [← hp.nil_eq]
    rfl
  | some x =>
    cases h1 : l1.getLast? with
    | none =>
      have hl1 : l1 = [] := List.getLast?_eq_none_iff.1 h1
      subst hl1
      have hl : l = [] := hp.eq_nil
      subst hl
      simp at h
    | some y =>
      have hx : x ∈ l := List.mem_of_getLast?_eq_some h
      have hy : y ∈ l := hp.mem_iff.2 (List.mem_of_getLast?_eq_some h1)
      rw [hall x hx y hy]

theorem lastArg_perm (f : Char) {opts opts1 : List CliOpt} (hp : opts.Perm opts1)
    (hdup : ∀ a ∈ opts, ∀ b ∈ opts, a.flag = b.flag → a = b) :
    lastArg f opts = lastArg f opts1 := by
  unfold lastArg
  apply getLast?_perm_of_all_eq (hp.filterMap _)
  intro x hx y hy
  obtain ⟨a, ha, hax⟩ := List.mem_filterMap.1 hx
  obtain ⟨b, hb, hby⟩ := List.mem_filterMap.1 hy
  by_cases hfa : a.flag = f
  · by_cases hfb : b.flag = f
    · have hab : a = b := hdup a ha b hb (hfa.trans hfb.symm)
      subst hab
      rw [hax] at hby
      exact Option.some.inj hby
    · rw [if_neg hfb] at hby
      exact absurd hby (by simp)
  · rw [if_neg hfa] at hax
    exact absurd hax (by simp)

theorem spec_config_perm (pd hd : String) {opts opts1 : List CliOpt} (hp : opts.Perm opts1)
    (hdup : ∀ a ∈ opts, ∀ b ∈ opts, a.flag = b.flag → a = b) :
    spec_config pd hd opts = spec_config pd hd opts1 := by
  unfold spec_config
  rw [lastArg_perm 'n' hp hdup, lastArg_perm 'S' hp hdup, lastArg_perm 'T' hp hdup,
    lastArg_perm 'c' hp hdup, lastArg_perm 't' hp hdup, lastArg_perm 'p' hp hdup,
    lastArg_perm 'H' hp hdup]
  have hd1 : (CliOpt.d ∈ opts) = (CliOpt.d ∈ opts1) := propext hp.mem_iff
  simp only [hd1]

/-! ## Lemmas: a run in which core_opt returns -/

theorem ordered_from_mono {k m : Nat} {l : List Event} (hm : m ≤ k) (h : ordered_from k l) :
    ordered_from m l :=
  ⟨h.1, fun e he => le_trans hm (h.2 e he)⟩

theorem returned_trace (env : Env) (cfg : agent_config_t) (hc : resolved env = some cfg) :
    ∃ rest, (main env).trace = init_calls ++ Event.pidfile_open :: rest
      ∧ ordered_from 5 rest := by
  rw [main_of_returned env cfg hc]
  unfold main_pidfile
  split
  · exact ⟨_, rfl, ordered_from_mono (by decide) (ordered_main_daemonize env _)⟩
  · split_ifs
    · exact ⟨_, rfl, ordered_from_cons (k := 5) rfl (by decide) (ordered_from_nil _)⟩
    · exact ⟨_, rfl, ordered_from_cons (k := 6) rfl (by decide) (ordered_main_daemonize env _)⟩

theorem initCalls_returned (env : Env) (cfg : agent_config_t) (hc : resolved env = some cfg) :
    initCalls (main env).trace = plugin_names := by
  obtain ⟨rest, htr, hord⟩ := returned_trace env cfg hc
  have hrest : initCalls (Event.pidfile_open :: rest) = [] := by
    apply initCalls_nil_of_phase
    intro e he
    rcases List.mem_cons.1 he with h | h
    · subst h; decide
    · have := hord.2 e h
      omega
  rw [htr]
  unfold initCalls at hrest ⊢
  rw [List.filterMap_append, hrest]
  rfl

theorem resolved_render (env : Env) (argv0 : String) (opts : List CliOpt)
    (hargv : env.argv = argv0 :: renderArgs opts) (hh : CliOpt.h ∉ opts) :
    resolved env = some (spec_config env.persist_dir env.html_dir opts) := by
  unfold resolved
  rw [hargv, core_opt_render _ _ _ _ _ _ hh]

theorem resolved_render_help (env : Env) (argv0 : String) (opts : List CliOpt)
    (hargv : env.argv = argv0 :: renderArgs opts) (hh : CliOpt.h ∈ opts) :
    resolved env = none := by
  unfold resolved
  rw [hargv, core_opt_render_help _ _ _ _ _ _ hh]

/-! ## Lemmas: the calls of a run that reaches the start loop -/

theorem phase_guard_calls (env : Env) : ∀ e ∈ guard_calls env, phase e = 4 ∨ phase e = 5 := by
  intro e he
  unfold guard_calls at he
  split at he
  · simp only [List.mem_singleton] at he
    subst he; exact Or.inl rfl
  · simp only [List.mem_cons, List.mem_singleton, List.mem_nil_iff, or_false] at he
    rcases he with h | h
    · subst h; exact Or.inl rfl
    · subst h; exact Or.inr rfl

theorem phase_daemon_calls (cfg : agent_config_t) :
    ∀ e ∈ daemon_calls cfg, phase e = 6 ∨ phase e = 7 := by
  intro e he
  unfold daemon_calls at he
  split_ifs at he
  · simp only [List.mem_cons, List.mem_singleton, List.mem_nil_iff, or_false] at he
    rcases he with h | h
    · subst h; exact Or.inl rfl
    · subst h; exact Or.inr rfl
  · simp only [List.mem_singleton] at he
    subst he; exact Or.inl rfl

theorem startCalls_completed (env : Env) (cfg : agent_config_t) (ps : List agent_plugin_t) :
    startCalls (init_calls ++ guard_calls env ++ daemon_calls cfg
        ++ (main_start env { config := cfg, plugins := ps }).trace)
      = startCalls (start_loop env ps).2 := by
  have h1 : startCalls init_calls = [] := rfl
  have h2 : startCalls (guard_calls env) = [] :=
    startCalls_nil_of_phase (fun e he => by rcases phase_guard_calls env e he with h | h <;> omega)
  have h3 : startCalls (daemon_calls cfg) = [] :=
    startCalls_nil_of_phase (fun e he => by rcases phase_daemon_calls cfg e he with h | h <;> omega)
  have h4 : startCalls (join_loop (start_loop env ps).1) = [] :=
    startCalls_nil_of_phase (fun e he => by have := phase_join_loop _ e he; omega)
  unfold startCalls at h1 h2 h3 h4 ⊢
  simp only [main_start, List.filterMap_append, h1, h2, h3, h4, List.nil_append,
    List.append_nil, List.filterMap_cons, List.filterMap_nil]

theorem joinCalls_completed (env : Env) (cfg : agent_config_t) (ps : List agent_plugin_t) :
    joinCalls (init_calls ++ guard_calls env ++ daemon_calls cfg
        ++ (main_start env { config := cfg, plugins := ps }).trace)
      = joinCalls (join_loop (start_loop env ps).1) := by
  have h1 : joinCalls init_calls = [] := rfl
  have h2 : joinCalls (guard_calls env) = [] :=
    joinCalls_nil_of_phase (fun e he => by rcases phase_guard_calls env e he with h | h <;> omega)
  have h3 : joinCalls (daemon_calls cfg) = [] :=
    joinCalls_nil_of_phase (fun e he => by rcases phase_daemon_calls cfg e he with h | h <;> omega)
  have h4 : joinCalls (start_loop env ps).2 = [] :=
    joinCalls_nil_of_phase (fun e he => by have := phase_start_loop env _ e he; omega)
  unfold joinCalls at h1 h2 h3 h4 ⊢
  simp only [main_start, List.filterMap_append, h1, h2, h3, h4, List.nil_append,
    List.append_nil, List.filterMap_cons, List.filterMap_nil]

/-- What a run that gets through the pidfile and daemonization steps does. -/
theorem completed_run (env : Env) (cfg : agent_config_t) (hc : resolved env = some cfg)
    (hp : ∀ o, env.pidfile ≠ .null EEXIST o) (hd : cfg.d_arg ≠ 0 ∨ env.daemon_ret = 0) :
    main env = { trace := init_calls ++ guard_calls env ++ daemon_calls cfg
                    ++ (main_start env { config := cfg, plugins := registry env }).trace
                 result := .exit 0 } := by
  rcases main_paths env with ⟨hn, _⟩ | ⟨_, o, _, hpf, _⟩ | ⟨c, hc1, _, hd0, hr, _⟩
    | ⟨c, hc1, _, hd0, hr, hr0, _⟩ | ⟨c, hc1, _, _, hm⟩
  · rw [hc] at hn; exact absurd hn (by simp)
  · exact absurd hpf (hp o)
  · rw [hc] at hc1
    have hcc : cfg = c := by simpa using hc1
    subst hcc
    rcases hd with hd | hd
    · exact absurd hd0 hd
    · rw [hd] at hr; exact absurd hr (by decide)
  · rw [hc] at hc1
    have hcc : cfg = c := by simpa using hc1
    subst hcc
    rcases hd with hd | hd
    · exact absurd hd0 hd
    · exact absurd hd hr0
  · rw [hc] at hc1
    have hcc : cfg = c := by simpa using hc1
    subst hcc
    exact hm

/-! ## Lemmas: which runs reach the start loop -/

theorem main_head (env : Env) :
    ∃ rest, (main env).trace = plugin_names.map Event.plugin_alloc ++ Event.core_opt :: rest
      ∧ ordered_from 2 rest := by
  rcases resolved_cases env with ⟨cfg, hc, _⟩ | ⟨hn, _⟩
  · obtain ⟨rest, htr, hord⟩ := returned_trace env cfg hc
    refine ⟨plugin_names.map Event.init ++ Event.pidfile_open :: rest, ?_, ?_⟩
    · rw [htr]
      simp [init_calls]
    · exact ordered_from_mono (by decide)
        (ordered_from_append (k := 4) phase_inits (by decide)
          (ordered_from_cons (k := 5) rfl (by decide) hord))
  · rw [main_of_exited env hn]
    exact ⟨_, rfl, ordered_from_cons (k := 2) rfl (le_refl _) (ordered_from_nil _)⟩

theorem start_phase_absent (env : Env) (h : (main env).result ≠ .exit 0) :
    Event.printf "Starting plugins: " [] ∉ (main env).trace
      ∧ startCalls (main env).trace = [] ∧ joinCalls (main env).trace = [] := by
  have hg : ∀ e ∈ guard_calls env, phase e ≠ 9 ∧ phase e ≠ 11 ∧ phase e ≠ 13 := by
    intro e he
    rcases phase_guard_calls env e he with h1 | h1 <;> omega
  rcases main_paths env with ⟨_, hm⟩ | ⟨_, o, _, _, hm⟩ | ⟨_, _, _, _, _, hm⟩
    | ⟨_, _, _, _, _, _, hm⟩ | ⟨_, _, _, _, hm⟩
  · rw [hm]
    exact ⟨by simp, rfl, rfl⟩
  · rw [hm]
    refine ⟨by simp [init_calls], ?_, ?_⟩
    · unfold startCalls
      rw [List.filterMap_append]
      rfl
    · unfold joinCalls
      rw [List.filterMap_append]
      rfl
  · rw [hm]
    refine ⟨?_, ?_, ?_⟩
    · intro hmem
      simp only [List.mem_append] at hmem
      rcases hmem with (h1 | h1) | h1
      · exact absurd h1 (by decide)
      · exact (hg _ h1).1 rfl
      · exact absurd h1 (by decide)
    · have h2 : startCalls (guard_calls env) = [] :=
        startCalls_nil_of_phase (fun e he => (hg e he).2.1)
      unfold startCalls at h2 ⊢
      rw [List.filterMap_append, List.filterMap_append, h2]
      rfl
    · have h2 : joinCalls (guard_calls env) = [] :=
        joinCalls_nil_of_phase (fun e he => (hg e he).2.2)
      unfold joinCalls at h2 ⊢
      rw [List.filterMap_append, List.filterMap_append, h2]
      rfl
  · rw [hm]
    refine ⟨?_, ?_, ?_⟩
    · intro hmem
      simp only [List.mem_append] at hmem
      rcases hmem with (h1 | h1) | h1
      · exact absurd h1 (by decide)
      · exact (hg _ h1).1 rfl
      · exact absurd h1 (by decide)
    · have h2 : startCalls (guard_calls env) = [] :=
        startCalls_nil_of_phase (fun e he => (hg e he).2.1)
      unfold startCalls at h2 ⊢
      rw [List.filterMap_append, List.filterMap_append, h2]
      rfl
    · have h2 : joinCalls (guard_calls env) = [] :=
        joinCalls_nil_of_phase (fun e he => (hg e he).2.2)
      unfold joinCalls at h2 ⊢
      rw [List.filterMap_append, List.filterMap_append, h2]
      rfl
  · rw [hm] at h
    exact absurd rfl h

theorem completed_of_exit_zero (env : Env) (h : (main env).result = .exit 0) :
    ∃ cfg, resolved env = some cfg
      ∧ main env = { trace := init_calls ++ guard_calls env ++ daemon_calls cfg
                        ++ (main_start env { config := cfg, plugins := registry env }).trace
                     result := .exit 0 } := by
  rcases main_paths env with ⟨_, hm⟩ | ⟨_, o, _, _, hm⟩ | ⟨_, _, _, _, _, hm⟩
    | ⟨_, _, _, _, _, _, hm⟩ | ⟨cfg, hc, _, _, hm⟩
  · rw [hm] at h; simp at h
  · rw [hm] at h; simp [EXIT_FAILURE] at h
  · rw [hm] at h; simp [EXIT_FAILURE] at h
  · rw [hm] at h; simp at h
  · exact ⟨cfg, hc, hm⟩

theorem completed_of_start_phase (env : Env)
    (h : Event.printf "Starting plugins: " [] ∈ (main env).trace) :
    (main env).result = .exit 0 := by
  by_contra hne
  exact (start_phase_absent env hne).1 h

/-! ## Claims about core_opt -/

/-- C1: for a command line made only of recognised options, without `-h`,
`core_opt` returns (printing nothing) the configuration obtained from the
documented defaults by overwriting, occurrence after occurrence, the field of
each given flag with the supplied value.  Each field then holds the value of
the last occurrence of its flag, or its default when the flag is absent; `-t`
stores the numeric value of its argument, which is 0 when the argument does
not begin like a number.  For `-d -c 9000 -t 2.5` the result has the debug
flag set, port "9000", timeout 2.5 and every other field at its default. -/
theorem core_opt_resolves_options (permute : Bool) (pd hd : String) (core : agent_core_t)
    (argv0 : String) (opts : List CliOpt) (hh : CliOpt.h ∉ opts) :
    (∃ cfg : agent_config_t,
      core_opt permute pd hd core (argv0 :: renderArgs opts)
          = ([], .returned { core with config := cfg })
        ∧ cfg = opts.foldl overwrite (core_opt_defaults pd hd)
        ∧ cfg = spec_config pd hd opts
        ∧ ((∀ o ∈ opts, o.flag ≠ 'n') → cfg.n_arg = none)
        ∧ ((∀ o ∈ opts, o.flag ≠ 'S') → cfg.S_arg = none)
        ∧ ((∀ o ∈ opts, o.flag ≠ 'T') → cfg.T_arg = none)
        ∧ ((∀ o ∈ opts, o.flag ≠ 'c') → cfg.c_arg = some "6085")
        ∧ ((∀ o ∈ opts, o.flag ≠ 't') → cfg.timeout = .finite 5)
        ∧ ((∀ o ∈ opts, o.flag ≠ 'd') → cfg.d_arg = 0)
        ∧ ((∀ o ∈ opts, o.flag ≠ 'p') → cfg.p_arg = some pd)
        ∧ ((∀ o ∈ opts, o.flag ≠ 'H') → cfg.H_arg = some hd)
        ∧ (∀ a, lastArg 't' opts = some a → cfg.timeout = strtod a)
        ∧ (∀ a, lastArg 't' opts = some a → numericStart (afterSign a) = false →
            cfg.timeout = .finite 0))
      ∧ core_opt permute pd hd core [argv0, "-d", "-c", "9000", "-t", "2.5"]
          = ([], .returned { core with
              config := { n_arg := none, S_arg := none, T_arg := none, c_arg := some "9000",
                          timeout := .finite (5 / 2), d_arg := 1, p_arg := some pd,
                          H_arg := some hd } }) := by
  refine ⟨⟨spec_config pd hd opts, core_opt_render permute pd hd core argv0 opts hh,
    (foldl_overwrite pd hd opts).symm, rfl, ?_, ?_, ?_, ?_, ?_, ?_, ?_, ?_, ?_, ?_⟩, ?_⟩
  · intro h; simp [spec_config, lastArg_absent _ _ h]
  · intro h; simp [spec_config, lastArg_absent _ _ h]
  · intro h; simp [spec_config, lastArg_absent _ _ h]
  · intro h; simp [spec_config, lastArg_absent _ _ h]
  · intro h; simp [spec_config, lastArg_absent _ _ h]
  · intro h
    have hd0 : CliOpt.d ∉ opts := fun hmem => h _ hmem rfl
    simp [spec_config, hd0]
  · intro h; simp [spec_config, lastArg_absent _ _ h]
  · intro h; simp [spec_config, lastArg_absent _ _ h]
  · intro a ha; simp [spec_config, ha]
  · intro a ha hnum; simp [spec_config, ha, strtod_nonnumeric a hnum]
  · have hsc := core_opt_render permute pd hd core argv0
      [CliOpt.d, CliOpt.c "9000", CliOpt.t "2.5"] (by decide)
    have hr : renderArgs [CliOpt.d, CliOpt.c "9000", CliOpt.t "2.5"]
        = ["-d", "-c", "9000", "-t", "2.5"] := by decide
    rw [hr] at hsc
    rw [hsc, ← foldl_overwrite]
    simp [overwrite, core_opt_defaults, strtod_two_and_a_half]

/-- C2 (the code departs from the claim): on `varnish-agent -x`, and on
`varnish-agent -c` with the argument of `-c` missing, `getopt` returns `?`,
for which the `switch` of `core_opt` has no case: `core_opt` prints no usage
text and returns the default configuration, and `main` goes on to initialise
and start the plugins and returns 0. -/
theorem core_opt_ignores_invalid_option :
    core_opt true "/var/lib/varnish-agent" "/usr/share/varnish-agent/html"
        { config := calloc_config, plugins := [] } ["varnish-agent", "-x"]
      = ([], .returned
          { config := core_opt_defaults "/var/lib/varnish-agent" "/usr/share/varnish-agent/html"
            plugins := [] })
    ∧ core_opt true "/var/lib/varnish-agent" "/usr/share/varnish-agent/html"
        { config := calloc_config, plugins := [] } ["varnish-agent", "-c"]
      = ([], .returned
          { config := core_opt_defaults "/var/lib/varnish-agent" "/usr/share/varnish-agent/html"
            plugins := [] })
    ∧ getopt_all true ["-x"] = [GetoptRet.bad 'x']
    ∧ (main (sample_env ["varnish-agent", "-x"] .handle 0)).result = .exit 0
    ∧ Event.start "pingd" "pingd" ∈ (main (sample_env ["varnish-agent", "-x"] .handle 0)).trace
    ∧ (∀ argv0,
        Event.usage argv0 ∉ (main (sample_env ["varnish-agent", "-x"] .handle 0)).trace) := by
  refine ⟨rfl, rfl, rfl, rfl, by decide, ?_⟩
  intro argv0 hmem
  have hall : ∀ e ∈ (main (sample_env ["varnish-agent", "-x"] .handle 0)).trace,
      phase e ≠ 2 := by decide
  exact hall _ hmem rfl

/-- C4 as stated fails: `-c 1 -c 2` and its permutation `-c 2 -c 1` resolve
to different configurations (the later occurrence wins). -/
theorem option_order_matters_for_repeated_flag :
    CliOpt.h ∉ [CliOpt.c "1", CliOpt.c "2"]
    ∧ [CliOpt.c "1", CliOpt.c "2"].Perm [CliOpt.c "2", CliOpt.c "1"]
    ∧ core_opt true "/var/lib/varnish-agent" "/usr/share/varnish-agent/html"
          { config := calloc_config, plugins := [] }
          ("varnish-agent" :: renderArgs [CliOpt.c "1", CliOpt.c "2"])
        ≠ core_opt true "/var/lib/varnish-agent" "/usr/share/varnish-agent/html"
          { config := calloc_config, plugins := [] }
          ("varnish-agent" :: renderArgs [CliOpt.c "2", CliOpt.c "1"]) := by
  refine ⟨by decide, List.Perm.swap _ _ _, ?_⟩
  rw [core_opt_render _ _ _ _ _ _ (by decide), core_opt_render _ _ _ _ _ _ (by decide)]
  intro h
  have hc := congrArg (fun r => match r.2 with
    | .returned core => core.config.c_arg
    | .exited _ => none) h
  revert hc
  decide

/-- C4, amended: for a command line of recognised options without `-h` in
which no flag is given with two different arguments, every permutation of the
option occurrences resolves to the same configuration. -/
theorem core_opt_order_insensitive (permute : Bool) (pd hd : String) (core : agent_core_t)
    (argv0 : String) (opts opts1 : List CliOpt) (hh : CliOpt.h ∉ opts)
    (hperm : opts.Perm opts1)
    (hdup : ∀ a ∈ opts, ∀ b ∈ opts, a.flag = b.flag → a = b) :
    core_opt permute pd hd core (argv0 :: renderArgs opts)
      = core_opt permute pd hd core (argv0 :: renderArgs opts1) := by
  have hh1 : CliOpt.h ∉ opts1 := fun hmem => hh (hperm.mem_iff.2 hmem)
  rw [core_opt_render _ _ _ _ _ _ hh, core_opt_render _ _ _ _ _ _ hh1,
    spec_config_perm pd hd hperm hdup]

/-- C3: for a command line of recognised options, `core_opt` ends the
process if and only if `-h` is among the options.  When it is, the usage text
is printed and the status is 1, and `main` has then made the twelve
`plugin_alloc` calls and the `core_opt` call only: no init entry point has
run, the pidfile has not been opened and no plugin has been started.  When it
is not, whatever the other options and their arguments, `core_opt` returns
and `main` goes on to initialise the plugins and open the pidfile. -/
theorem help_is_the_only_halting_option (env : Env) (argv0 : String) (opts : List CliOpt)
    (hargv : env.argv = argv0 :: renderArgs opts) :
    (∀ core, (∃ status, (core_opt env.permute env.persist_dir env.html_dir core env.argv).2
        = .exited status) ↔ CliOpt.h ∈ opts)
    ∧ (CliOpt.h ∈ opts →
        (∀ core, core_opt env.permute env.persist_dir env.html_dir core env.argv
          = ([Event.usage argv0], .exited 1))
        ∧ main env = { trace := plugin_names.map Event.plugin_alloc
                          ++ [Event.core_opt, Event.usage argv0]
                       result := .exit 1 }
        ∧ (∀ n, Event.init n ∉ (main env).trace)
        ∧ Event.pidfile_open ∉ (main env).trace
        ∧ (∀ entry n, Event.start entry n ∉ (main env).trace))
    ∧ (CliOpt.h ∉ opts →
        (∀ core, core_opt env.permute env.persist_dir env.html_dir core env.argv
          = ([], .returned
              { core with config := spec_config env.persist_dir env.html_dir opts }))
        ∧ initCalls (main env).trace = plugin_names
        ∧ Event.pidfile_open ∈ (main env).trace) := by
  refine ⟨fun core => ?_, fun hh => ?_, fun hh => ?_⟩
  · rw [hargv]
    by_cases hh : CliOpt.h ∈ opts
    · rw [core_opt_render_help _ _ _ _ _ _ hh]
      exact ⟨fun _ => hh, fun _ => ⟨1, rfl⟩⟩
    · rw [core_opt_render _ _ _ _ _ _ hh]
      exact ⟨fun ⟨_, hx⟩ => absurd hx (by simp), fun hmem => absurd hmem hh⟩
  · have hmain := main_of_exited env (resolved_render_help env argv0 opts hargv hh)
    have hhead : env.argv.headD "" = argv0 := by rw [hargv]; rfl
    rw [hhead] at hmain
    refine ⟨fun core => ?_, hmain, ?_, ?_, ?_⟩
    · rw [hargv]; exact core_opt_render_help _ _ _ _ _ _ hh
    · intro n; rw [hmain]; simp
    · rw [hmain]; simp
    · intro entry n; rw [hmain]; simp
  · have hres := resolved_render env argv0 opts hargv hh
    refine ⟨fun core => ?_, initCalls_returned env _ hres, ?_⟩
    · rw [hargv]; exact core_opt_render _ _ _ _ _ _ hh
    · obtain ⟨rest, htr, _⟩ := returned_trace env _ hres
      rw [htr]
      simp

/-! ## Claims about main -/

/-- C5: when `pidfile_open` returns no handle with `errno` `EEXIST` and
reports the pid `otherpid`, `main` ends with status 1 whatever the arguments:
no start entry point is called, `daemon` is not called and `pidfile_write` is
not called.  When `core_opt` has returned a configuration the run is the
allocation, parsing and init calls, then `pidfile_open`, then `errx` with
`EXIT_FAILURE` and `otherpid`, and nothing more. -/
theorem already_running_is_fatal (env : Env) (otherpid : Int)
    (hp : env.pidfile = .null EEXIST otherpid) :
    (main env).result = .exit 1
    ∧ (main env).result ≠ .exit 0
    ∧ (∀ entry n, Event.start entry n ∉ (main env).trace)
    ∧ Event.daemon ∉ (main env).trace
    ∧ Event.pidfile_write ∉ (main env).trace
    ∧ (∀ cfg, resolved env = some cfg →
        main env = { trace := init_calls
                        ++ [Event.pidfile_open, Event.errx EXIT_FAILURE otherpid]
                     result := .exit EXIT_FAILURE }) := by
  rcases main_paths env with ⟨hn, hm⟩ | ⟨c, o, hc, hpf, hm⟩ | ⟨_, _, hne, _⟩
    | ⟨_, _, hne, _⟩ | ⟨_, _, hne, _⟩
  · rw [hm]
    refine ⟨rfl, by simp [EXIT_FAILURE], ?_, ?_, ?_, ?_⟩
    · intro entry n; simp
    · simp
    · simp
    · intro cfg hcfg; rw [hn] at hcfg; exact absurd hcfg (by simp)
  · rw [hp] at hpf
    have ho : otherpid = o := by injection hpf
    subst ho
    rw [hm]
    refine ⟨rfl, by simp [EXIT_FAILURE], ?_, ?_, ?_, ?_⟩
    · intro entry n; simp [init_calls]
    · simp [init_calls]
    · simp [init_calls]
    · intro _ _; rfl
  · exact absurd hp (hne otherpid)
  · exact absurd hp (hne otherpid)
  · exact absurd hp (hne otherpid)

/-- C6: when `pidfile_open` returns no handle and `errno` is not `EEXIST`,
and `core_opt` has returned, `main` warns and goes on: its calls are those of
the run in which `pidfile_open` succeeds, with the one warning added right
after `pidfile_open`, and it ends the same way.  If moreover the debug flag
is set or `daemon` returns 0, every record holding a start entry point has it
called, in list order with its own name, every record with a thread handle
is joined, in list order, and `main` returns 0. -/
theorem pidfile_failure_only_warns (env : Env) (errno otherpid : Int) (cfg : agent_config_t)
    (hp : env.pidfile = .null errno otherpid) (he : errno ≠ EEXIST)
    (hc : resolved env = some cfg) :
    (∃ rest,
        (main env).trace = init_calls ++ Event.pidfile_open
            :: Event.warn "Cannot open or create pidfile" :: rest
        ∧ (main { env with pidfile := .handle }).trace
            = init_calls ++ Event.pidfile_open :: rest
        ∧ rest ≠ []
        ∧ (main env).result = (main { env with pidfile := .handle }).result)
    ∧ (cfg.d_arg ≠ 0 ∨ env.daemon_ret = 0 →
        (main env).result = .exit 0
        ∧ startCalls (main env).trace
            = (registry env).filterMap (fun p => p.start.map (fun entry => (entry, p.name)))
        ∧ startCalls (main env).trace
            = (plugin_names.filter env.installs_start).map (fun n => (n, n))
        ∧ joinCalls (main env).trace
            = ((start_loop env (registry env)).1.filter (fun p => p.thread)).map
                (fun p => p.name)
        ∧ joinCalls (main env).trace
            = plugin_names.filter (fun n => env.installs_start n && env.spawns_thread n)) := by
  constructor
  · have hc1 : resolved { env with pidfile := PidfileOpen.handle } = some cfg := hc
    have h1 := main_of_returned env cfg hc
    have h2 := main_of_returned { env with pidfile := PidfileOpen.handle } cfg hc1
    refine ⟨(main_daemonize env
      { config := cfg, plugins := plugin_names.map (initialised env) }).trace, ?_, ?_, ?_, ?_⟩
    · rw [h1]
      simp [main_pidfile, hp, he, Run.after, init_calls]
    · rw [h2]
      simp only [main_pidfile, Run.after, init_calls, List.append_assoc, List.cons_append,
        List.nil_append]
      rfl
    · unfold main_daemonize
      split_ifs <;> simp [Run.after]
    · rw [h1, h2]
      simp only [main_pidfile, hp, he, Run.after, if_false]
      rfl
  · intro hd
    have hne : ∀ o, env.pidfile ≠ .null EEXIST o := by
      intro o h
      rw [hp] at h
      injection h with h1 _
      exact he h1
    rw [completed_run env cfg hc hne hd, startCalls_completed, joinCalls_completed,
      start_loop_calls_registry, join_loop_calls]
    refine ⟨rfl, rfl, ?_, rfl, ?_⟩
    · rw [← start_loop_calls_registry, registry_eq, start_loop_calls]
    · rw [registry_eq, start_loop_records, started_threads]

/-- C7: in a run that reaches the daemonization step (`core_opt` has
returned and `pidfile_open` has not reported `EEXIST`), `daemon` is called if
and only if `d_arg` is 0.  All twelve init calls and `pidfile_open` are made,
and every one of them comes before `daemon`, which comes before every start
call.  When `d_arg` is 0 and `daemon` returns -1, the run ends with `daemon`,
the warning and `pidfile_remove`, the status is `EXIT_FAILURE`, and no start
entry point is called. -/
theorem daemonize_unless_debug (env : Env) (cfg : agent_config_t)
    (hc : resolved env = some cfg) (hp : ∀ o, env.pidfile ≠ .null EEXIST o) :
    (Event.daemon ∈ (main env).trace ↔ cfg.d_arg = 0)
    ∧ initCalls (main env).trace = plugin_names
    ∧ Event.pidfile_open ∈ (main env).trace
    ∧ precedes (main env).trace (fun e => ∃ n, e = Event.init n) (fun e => e = Event.daemon)
    ∧ precedes (main env).trace (fun e => e = Event.pidfile_open) (fun e => e = Event.daemon)
    ∧ precedes (main env).trace (fun e => e = Event.daemon)
        (fun e => ∃ entry n, e = Event.start entry n)
    ∧ (cfg.d_arg = 0 → env.daemon_ret = -1 →
        (main env).result = .exit EXIT_FAILURE
        ∧ (main env).result ≠ .exit 0
        ∧ (∃ pre, (main env).trace
            = pre ++ [Event.daemon, Event.warn "Cannot daemonize", Event.pidfile_remove])
        ∧ (∀ entry n, Event.start entry n ∉ (main env).trace)) := by
  have hord := ordered_main env
  refine ⟨?_, initCalls_returned env cfg hc, ?_, ?_, ?_, ?_, ?_⟩
  · rcases main_paths env with ⟨hn, _⟩ | ⟨_, o, _, hpf, _⟩ | ⟨c, hc1, _, hd0, hr, hm⟩
      | ⟨c, hc1, _, hd0, hr, hr0, hm⟩ | ⟨c, hc1, _, hd, hm⟩
    · rw [hc] at hn; exact absurd hn (by simp)
    · exact absurd hpf (hp o)
    · rw [hc] at hc1
      have hcc : cfg = c := by simpa using hc1
      subst hcc
      rw [hm]
      simp [hd0]
    · rw [hc] at hc1
      have hcc : cfg = c := by simpa using hc1
      subst hcc
      rw [hm]
      simp [hd0]
    · rw [hc] at hc1
      have hcc : cfg = c := by simpa using hc1
      subst hcc
      rw [hm]
      have h1 : Event.daemon ∉ init_calls := by decide
      have h2 : Event.daemon ∉ guard_calls env := by
        intro hmem
        rcases phase_guard_calls env _ hmem with h | h <;> exact absurd h (by decide)
      have h3 : Event.daemon ∉ (main_start env { config := cfg, plugins := registry env }).trace := by
        intro hmem
        have := (ordered_main_start env _).2 _ hmem
        exact absurd this (by decide)
      by_cases hd0 : cfg.d_arg = 0
      · simp [daemon_calls, hd0]
      · simp [daemon_calls, hd0, h1, h2, h3]
  · obtain ⟨rest, htr, _⟩ := returned_trace env cfg hc
    rw [htr]
    simp
  · exact precedes_of_ordered hord _ _ 3 (fun a ⟨n, hn⟩ => by subst hn; exact le_refl _)
      (fun b hb => by subst hb; decide)
  · exact precedes_of_ordered hord _ _ 4 (fun a ha => by subst ha; exact le_refl _)
      (fun b hb => by subst hb; decide)
  · exact precedes_of_ordered hord _ _ 7 (fun a ha => by subst ha; exact le_refl _)
      (fun b ⟨entry, n, hb⟩ => by subst hb; simp [phase])
  · intro hd0 hr
    rcases main_paths env with ⟨hn, _⟩ | ⟨_, o, _, hpf, _⟩ | ⟨c, hc1, _, _, _, hm⟩
      | ⟨c, hc1, _, _, _, hr0, hm⟩ | ⟨c, hc1, _, hd, hm⟩
    · rw [hc] at hn; exact absurd hn (by simp)
    · exact absurd hpf (hp o)
    · rw [hm]
      refine ⟨rfl, by simp [EXIT_FAILURE], ⟨init_calls ++ guard_calls env
        ++ [Event.printf "Plugins initialized. Forking.\n" []], by simp⟩, ?_⟩
      intro entry n hmem
      simp only [List.mem_append, List.mem_cons, List.mem_singleton, List.mem_nil_iff,
        or_false] at hmem
      rcases hmem with (h | h) | h
      · exact absurd h (by simp [init_calls])
      · rcases phase_guard_calls env _ h with h1 | h1 <;> exact absurd h1 (by simp [phase])
      · simp at h
    · rw [hc] at hc1
      have hcc : cfg = c := by simpa using hc1
      subst hcc
      exact absurd hr ‹env.daemon_ret ≠ -1›
    · rw [hc] at hc1
      have hcc : cfg = c := by simpa using hc1
      subst hcc
      rcases hd with hd | hd
      · exact absurd hd0 hd
      · rw [hd] at hr; exact absurd hr (by decide)

/-- C8: in every run of `main` the phases come in the order allocate, parse,
initialise, pidfile, daemonization, start, join.  The first thirteen calls are
the twelve `plugin_alloc` calls followed by `core_opt`; `core_opt` is called
exactly once and no `plugin_alloc` call comes later; `core_opt` comes before
every init call; every init call comes before `pidfile_open`; `pidfile_open`
comes before the daemonization step (the message printed on either branch,
and `daemon`); `pidfile_open`, that message and `daemon` come before every
start call; and every start call comes before every `pthread_join`. -/
theorem phases_in_order (env : Env) :
    (main env).trace.take 13 = plugin_names.map Event.plugin_alloc ++ [Event.core_opt]
    ∧ (main env).trace.count Event.core_opt = 1
    ∧ allocCalls (main env).trace = plugin_names
    ∧ precedes (main env).trace (fun e => ∃ n, e = Event.plugin_alloc n)
        (fun e => e = Event.core_opt)
    ∧ precedes (main env).trace (fun e => e = Event.core_opt) (fun e => ∃ n, e = Event.init n)
    ∧ precedes (main env).trace (fun e => ∃ n, e = Event.init n)
        (fun e => e = Event.pidfile_open)
    ∧ precedes (main env).trace (fun e => e = Event.pidfile_open)
        (fun e => e = Event.printf "Plugins initialized. Forking.\n" []
          ∨ e = Event.printf "Plugins initialized. No -d argument so not forking.\n" []
          ∨ e = Event.daemon)
    ∧ precedes (main env).trace
        (fun e => e = Event.pidfile_open
          ∨ e = Event.printf "Plugins initialized. Forking.\n" []
          ∨ e = Event.printf "Plugins initialized. No -d argument so not forking.\n" []
          ∨ e = Event.daemon)
        (fun e => ∃ entry n, e = Event.start entry n)
    ∧ precedes (main env).trace (fun e => ∃ entry n, e = Event.start entry n)
        (fun e => ∃ n, e = Event.pthread_join n) := by
  have hord := ordered_main env
  obtain ⟨rest, htr, hrest⟩ := main_head env
  have hno : Event.core_opt ∉ rest := fun hmem => absurd (hrest.2 _ hmem) (by decide)
  have hno1 : Event.core_opt ∉ plugin_names.map Event.plugin_alloc := by decide
  refine ⟨?_, ?_, ?_, ?_, ?_, ?_, ?_, ?_, ?_⟩
  · rw [htr]; rfl
  · rw [htr, List.count_append, List.count_cons_self, List.count_eq_zero.2 hno,
      List.count_eq_zero.2 hno1]
  · have h1 : allocCalls (Event.core_opt :: rest) = [] := by
      apply allocCalls_nil_of_phase
      intro e he
      rcases List.mem_cons.1 he with h | h
      · subst h; decide
      · have := hrest.2 e h
        omega
    have h2 := allocCalls_allocs plugin_names
    rw [htr]
    unfold allocCalls at h1 h2 ⊢
    rw [List.filterMap_append, h1, h2, List.append_nil]
  · exact precedes_of_ordered hord _ _ 0 (fun a ⟨n, hn⟩ => by subst hn; exact le_refl _)
      (fun b hb => by subst hb; decide)
  · exact precedes_of_ordered hord _ _ 1 (fun a ha => by subst ha; exact le_refl _)
      (fun b ⟨n, hb⟩ => by subst hb; simp [phase])
  · exact precedes_of_ordered hord _ _ 3 (fun a ⟨n, hn⟩ => by subst hn; exact le_refl _)
      (fun b hb => by subst hb; decide)
  · exact precedes_of_ordered hord _ _ 4 (fun a ha => by subst ha; exact le_refl _)
      (fun b hb => by rcases hb with h | h | h <;> subst h <;> decide)
  · exact precedes_of_ordered hord _ _ 7
      (fun a ha => by rcases ha with h | h | h | h <;> subst h <;> decide)
      (fun b ⟨entry, n, hb⟩ => by subst hb; simp [phase])
  · exact precedes_of_ordered hord _ _ 11 (fun a ⟨entry, n, ha⟩ => by subst ha; exact le_refl _)
      (fun b ⟨n, hb⟩ => by subst hb; simp [phase])

/-- C9: the twelve names `core_alloc_plugins` registers are pairwise distinct;
`plugin_alloc` appends, so the list headed by `core.plugins` holds them in
registration order; `core_plugins` calls the init entry points of exactly
these twelve plugins in that order; and the start loop of `main` calls the
start entry points of the records that hold one in that same order, each with
the name of its own record (a run that ends before the start loop calls
none). -/
theorem registration_order_is_lifecycle_order (env : Env) :
    plugin_names.Nodup
    ∧ plugin_names.length = 12
    ∧ (∀ name s, (plugin_alloc name s).core.plugins
        = s.core.plugins ++ [{ name := name, start := none, thread := false }])
    ∧ allocCalls (main env).trace = plugin_names
    ∧ (registry env).map (fun p => p.name) = plugin_names
    ∧ (∀ cfg, resolved env = some cfg → initCalls (main env).trace = plugin_names)
    ∧ ((main env).result = .exit 0 →
        startCalls (main env).trace
            = (registry env).filterMap (fun p => p.start.map (fun entry => (entry, p.name)))
        ∧ startCalls (main env).trace
            = (plugin_names.filter env.installs_start).map (fun n => (n, n)))
    ∧ ((main env).result ≠ .exit 0 → startCalls (main env).trace = []) := by
  refine ⟨by decide, rfl, fun _ _ => rfl, ?_, ?_, fun cfg hc => initCalls_returned env cfg hc,
    ?_, fun h => (start_phase_absent env h).2.1⟩
  · obtain ⟨rest, htr, hrest⟩ := main_head env
    have h1 : allocCalls (Event.core_opt :: rest) = [] := by
      apply allocCalls_nil_of_phase
      intro e he
      rcases List.mem_cons.1 he with h | h
      · subst h; decide
      · have := hrest.2 e h
        omega
    have h2 := allocCalls_allocs plugin_names
    rw [htr]
    unfold allocCalls at h1 h2 ⊢
    rw [List.filterMap_append, h1, h2, List.append_nil]
  · rw [registry_eq, List.map_map]
    have hname : ((fun p : agent_plugin_t => p.name) ∘ initialised env) = id := by
      funext n
      by_cases h : env.installs_start n = true <;> simp [initialised, h]
    rw [hname, List.map_id]
  · intro h
    obtain ⟨cfg, _, hm⟩ := completed_of_exit_zero env h
    rw [hm, startCalls_completed, start_loop_calls_registry]
    refine ⟨rfl, ?_⟩
    rw [← start_loop_calls_registry, registry_eq, start_loop_calls]

/-- C10: on every run of `main` that reaches the start phase, `main` returns
0, and the run ends with the start loop, the newline, then `pthread_join` on
exactly the records whose thread handle is set, in list order, then
`pidfile_remove`.  Every start call comes before every join and every join
before `pidfile_remove`.  When no record has a thread handle no join is made:
the run ends with the start loop, the newline and `pidfile_remove`. -/
theorem join_barrier (env : Env)
    (hs : Event.printf "Starting plugins: " [] ∈ (main env).trace) :
    (main env).result = .exit 0
    ∧ (∃ pre, (main env).trace
          = pre ++ (start_loop env (registry env)).2
            ++ Event.printf "\n" [] :: join_loop (start_loop env (registry env)).1
            ++ [Event.pidfile_remove]
        ∧ startCalls pre = [] ∧ joinCalls pre = [])
    ∧ joinCalls (main env).trace
        = ((start_loop env (registry env)).1.filter (fun p => p.thread)).map (fun p => p.name)
    ∧ joinCalls (main env).trace
        = plugin_names.filter (fun n => env.installs_start n && env.spawns_thread n)
    ∧ precedes (main env).trace (fun e => ∃ entry n, e = Event.start entry n)
        (fun e => ∃ n, e = Event.pthread_join n)
    ∧ precedes (main env).trace (fun e => ∃ n, e = Event.pthread_join n)
        (fun e => e = Event.pidfile_remove)
    ∧ (main env).trace.getLast? = some Event.pidfile_remove
    ∧ ((∀ p ∈ (start_loop env (registry env)).1, p.thread = false) →
        (∀ n, Event.pthread_join n ∉ (main env).trace)
        ∧ ∃ pre, (main env).trace
            = pre ++ (start_loop env (registry env)).2
              ++ [Event.printf "\n" [], Event.pidfile_remove]) := by
  have hord := ordered_main env
  have hres := completed_of_start_phase env hs
  obtain ⟨cfg, hc, hm⟩ := completed_of_exit_zero env hres
  have hg1 : startCalls (guard_calls env) = [] :=
    startCalls_nil_of_phase (fun e he => by rcases phase_guard_calls env e he with h | h <;> omega)
  have hg2 : joinCalls (guard_calls env) = [] :=
    joinCalls_nil_of_phase (fun e he => by rcases phase_guard_calls env e he with h | h <;> omega)
  have hd1 : startCalls (daemon_calls cfg) = [] :=
    startCalls_nil_of_phase (fun e he => by rcases phase_daemon_calls cfg e he with h | h <;> omega)
  have hd2 : joinCalls (daemon_calls cfg) = [] :=
    joinCalls_nil_of_phase (fun e he => by rcases phase_daemon_calls cfg e he with h | h <;> omega)
  have htr : (main env).trace
      = (init_calls ++ guard_calls env ++ daemon_calls cfg
          ++ [Event.printf "Starting plugins: " [], Event.pidfile_write])
        ++ (start_loop env (registry env)).2
        ++ Event.printf "\n" [] :: join_loop (start_loop env (registry env)).1
        ++ [Event.pidfile_remove] := by
    rw [hm]
    simp [main_start]
  have hjoin : joinCalls (main env).trace
      = ((start_loop env (registry env)).1.filter (fun p => p.thread)).map (fun p => p.name) := by
    rw [hm, joinCalls_completed, join_loop_calls]
  refine ⟨hres, ⟨_, htr, ?_, ?_⟩, hjoin, ?_, ?_, ?_, ?_, ?_⟩
  · have h0 : startCalls init_calls = [] := rfl
    unfold startCalls at h0 hg1 hd1 ⊢
    simp only [List.filterMap_append, h0, hg1, hd1, List.nil_append]
    rfl
  · have h0 : joinCalls init_calls = [] := rfl
    unfold joinCalls at h0 hg2 hd2 ⊢
    simp only [List.filterMap_append, h0, hg2, hd2, List.nil_append]
    rfl
  · rw [hjoin, registry_eq, start_loop_records, started_threads]
  · exact precedes_of_ordered hord _ _ 11 (fun a ⟨entry, n, ha⟩ => by subst ha; exact le_refl _)
      (fun b ⟨n, hb⟩ => by subst hb; simp [phase])
  · exact precedes_of_ordered hord _ _ 13 (fun a ⟨n, ha⟩ => by subst ha; exact le_refl _)
      (fun b hb => by subst hb; decide)
  · rw [htr, List.getLast?_concat]
  · intro hnone
    have hnil := join_loop_nil_of_no_thread _ hnone
    refine ⟨?_, ⟨init_calls ++ guard_calls env ++ daemon_calls cfg
      ++ [Event.printf "Starting plugins: " [], Event.pidfile_write], ?_⟩⟩
    swap
    · rw [htr, hnil]
      simp only [List.append_assoc, List.cons_append, List.nil_append]
    intro n hmem
    have hmem1 : n ∈ joinCalls (main env).trace := by
      unfold joinCalls
      exact List.mem_filterMap.2 ⟨_, hmem, rfl⟩
    rw [hm, joinCalls_completed, hnil] at hmem1
    exact absurd hmem1 (List.not_mem_nil _)

/-! ## The claims at concrete inputs -/

/-- C1 at `-n inst -t abc`: the instance name is stored, the timeout is 0 and
the port keeps its default. -/
theorem core_opt_resolves_options_witness :
    CliOpt.h ∉ [CliOpt.n "inst", CliOpt.t "abc"]
    ∧ ∃ cfg : agent_config_t,
        core_opt true "/var/lib/varnish-agent" "/usr/share/varnish-agent/html"
            { config := calloc_config, plugins := [] }
            ["varnish-agent", "-n", "inst", "-t", "abc"]
          = ([], .returned { config := cfg, plugins := [] })
        ∧ cfg.n_arg = some "inst" ∧ cfg.timeout = .finite 0 ∧ cfg.c_arg = some "6085"
        ∧ cfg.d_arg = 0 := by
  refine ⟨by decide, ?_⟩
  obtain ⟨⟨cfg, h1, _, h3, _, _, _, hc, _, hd, _, _, _, ht⟩, _⟩ :=
    core_opt_resolves_options true "/var/lib/varnish-agent" "/usr/share/varnish-agent/html"
      { config := calloc_config, plugins := [] } "varnish-agent"
      [CliOpt.n "inst", CliOpt.t "abc"] (by decide)
  refine ⟨cfg, h1, ?_, ht "abc" (by decide) (by decide), hc (by decide), hd (by decide)⟩
  rw [h3]
  decide

/-- C3 at `-d -h`: the run ends in `core_opt` with status 1. -/
theorem help_is_the_only_halting_option_witness :
    (sample_env ("varnish-agent" :: renderArgs [CliOpt.d, CliOpt.h]) .handle 0).argv
        = "varnish-agent" :: renderArgs [CliOpt.d, CliOpt.h]
    ∧ main (sample_env ("varnish-agent" :: renderArgs [CliOpt.d, CliOpt.h]) .handle 0)
        = { trace := plugin_names.map Event.plugin_alloc
              ++ [Event.core_opt, Event.usage "varnish-agent"]
            result := .exit 1 } :=
  ⟨rfl, ((help_is_the_only_halting_option
    (sample_env ("varnish-agent" :: renderArgs [CliOpt.d, CliOpt.h]) .handle 0)
    "varnish-agent" [CliOpt.d, CliOpt.h] rfl).2.1 (by decide)).2.1⟩

/-- C4, amended, at `-d -c 9000 -t 2.5` and `-t 2.5 -d -c 9000`. -/
theorem core_opt_order_insensitive_witness :
    CliOpt.h ∉ [CliOpt.d, CliOpt.c "9000", CliOpt.t "2.5"]
    ∧ [CliOpt.d, CliOpt.c "9000", CliOpt.t "2.5"].Perm
        [CliOpt.t "2.5", CliOpt.d, CliOpt.c "9000"]
    ∧ (∀ a ∈ [CliOpt.d, CliOpt.c "9000", CliOpt.t "2.5"],
        ∀ b ∈ [CliOpt.d, CliOpt.c "9000", CliOpt.t "2.5"], a.flag = b.flag → a = b)
    ∧ core_opt true "/var/lib/varnish-agent" "/usr/share/varnish-agent/html"
          { config := calloc_config, plugins := [] }
          ("varnish-agent" :: renderArgs [CliOpt.d, CliOpt.c "9000", CliOpt.t "2.5"])
        = core_opt true "/var/lib/varnish-agent" "/usr/share/varnish-agent/html"
          { config := calloc_config, plugins := [] }
          ("varnish-agent" :: renderArgs [CliOpt.t "2.5", CliOpt.d, CliOpt.c "9000"]) :=
  ⟨by decide, by decide, by decide,
    core_opt_order_insensitive true "/var/lib/varnish-agent" "/usr/share/varnish-agent/html"
      { config := calloc_config, plugins := [] } "varnish-agent"
      [CliOpt.d, CliOpt.c "9000", CliOpt.t "2.5"] [CliOpt.t "2.5", CliOpt.d, CliOpt.c "9000"]
      (by decide) (by decide) (by decide)⟩

/-- C5 with the pidfile held by pid 4242: the run ends with `errx` naming
4242, status 1, and no plugin is started. -/
theorem already_running_is_fatal_witness :
    (sample_env ["varnish-agent"] (.null EEXIST 4242) 0).pidfile = .null EEXIST 4242
    ∧ (main (sample_env ["varnish-agent"] (.null EEXIST 4242) 0)).result = .exit 1
    ∧ (∀ entry n, Event.start entry n
        ∉ (main (sample_env ["varnish-agent"] (.null EEXIST 4242) 0)).trace)
    ∧ main (sample_env ["varnish-agent"] (.null EEXIST 4242) 0)
        = { trace := init_calls ++ [Event.pidfile_open, Event.errx EXIT_FAILURE 4242]
            result := .exit EXIT_FAILURE } :=
  ⟨rfl,
    (already_running_is_fatal (sample_env ["varnish-agent"] (.null EEXIST 4242) 0) 4242 rfl).1,
    (already_running_is_fatal (sample_env ["varnish-agent"] (.null EEXIST 4242) 0) 4242 rfl).2.2.1,
    (already_running_is_fatal (sample_env ["varnish-agent"] (.null EEXIST 4242) 0) 4242
      rfl).2.2.2.2.2 _ rfl⟩

/-- C6 with `pidfile_open` failing with `errno` 13 and `-d` given: the run
warns, starts the eleven plugins that have a start entry point, joins the two
workers and returns 0. -/
theorem pidfile_failure_only_warns_witness :
    (sample_env ["varnish-agent", "-d"] (.null 13 0) 0).pidfile = .null 13 0
    ∧ (13 : Int) ≠ EEXIST
    ∧ resolved (sample_env ["varnish-agent", "-d"] (.null 13 0) 0)
        = some { core_opt_defaults "/var/lib/varnish-agent" "/usr/share/varnish-agent/html"
                 with d_arg := 1 }
    ∧ (main (sample_env ["varnish-agent", "-d"] (.null 13 0) 0)).result = .exit 0
    ∧ joinCalls (main (sample_env ["varnish-agent", "-d"] (.null 13 0) 0)).trace
        = ["pingd", "httpd"] := by
  have h := (pidfile_failure_only_warns (sample_env ["varnish-agent", "-d"] (.null 13 0) 0)
    13 0 { core_opt_defaults "/var/lib/varnish-agent" "/usr/share/varnish-agent/html"
           with d_arg := 1 } rfl (by decide) rfl).2 (Or.inl (by decide))
  exact ⟨rfl, by decide, rfl, h.1, h.2.2.2.2.trans (by decide)⟩

/-- C7 with no `-d` and `daemon` returning -1: `daemon` is called, the
pidfile is removed and the run ends with `EXIT_FAILURE`. -/
theorem daemonize_unless_debug_witness :
    resolved (sample_env ["varnish-agent"] .handle (-1))
        = some (core_opt_defaults "/var/lib/varnish-agent" "/usr/share/varnish-agent/html")
    ∧ (∀ o, (sample_env ["varnish-agent"] .handle (-1)).pidfile ≠ .null EEXIST o)
    ∧ Event.daemon ∈ (main (sample_env ["varnish-agent"] .handle (-1))).trace
    ∧ (main (sample_env ["varnish-agent"] .handle (-1))).result = .exit EXIT_FAILURE
    ∧ (∀ entry n, Event.start entry n
        ∉ (main (sample_env ["varnish-agent"] .handle (-1))).trace) := by
  have hp : ∀ o, (sample_env ["varnish-agent"] .handle (-1)).pidfile ≠ .null EEXIST o :=
    fun o h => PidfileOpen.noConfusion h
  have h := daemonize_unless_debug (sample_env ["varnish-agent"] .handle (-1))
    (core_opt_defaults "/var/lib/varnish-agent" "/usr/share/varnish-agent/html") rfl hp
  exact ⟨rfl, hp, h.1.2 rfl, (h.2.2.2.2.2.2 rfl rfl).1, (h.2.2.2.2.2.2 rfl rfl).2.2.2⟩

/-- C9 at a run that completes: the eleven plugins with a start entry point
are started in registration order, each with its own name. -/
theorem registration_order_is_lifecycle_order_witness :
    (main (sample_env ["varnish-agent", "-d"] .handle 0)).result = .exit 0
    ∧ initCalls (main (sample_env ["varnish-agent", "-d"] .handle 0)).trace = plugin_names
    ∧ startCalls (main (sample_env ["varnish-agent", "-d"] .handle 0)).trace
        = [("pingd", "pingd"), ("logd", "logd"), ("vadmin", "vadmin"), ("httpd", "httpd"),
            ("status", "status"), ("vcl", "vcl"), ("html", "html"), ("params", "params"),
            ("ban", "ban"), ("varnishstat", "varnishstat"), ("vlog", "vlog")] := by
  have h := registration_order_is_lifecycle_order (sample_env ["varnish-agent", "-d"] .handle 0)
  exact ⟨rfl, h.2.2.2.2.2.1 _ rfl, (h.2.2.2.2.2.2.1 rfl).2.trans (by decide)⟩

/-- C10 at a run in the foreground: the two workers are joined, in list
order, and `main` returns 0. -/
theorem join_barrier_witness :
    Event.printf "Starting plugins: " []
        ∈ (main (sample_env ["varnish-agent", "-d"] .handle 0)).trace
    ∧ (main (sample_env ["varnish-agent", "-d"] .handle 0)).result = .exit 0
    ∧ joinCalls (main (sample_env ["varnish-agent", "-d"] .handle 0)).trace
        = ["pingd", "httpd"]
    ∧ (main (sample_env ["varnish-agent", "-d"] .handle 0)).trace.getLast?
        = some Event.pidfile_remove := by
  have h := join_barrier (sample_env ["varnish-agent", "-d"] .handle 0) (by decide)
  exact ⟨by decide, h.1, h.2.2.2.1.trans (by decide), h.2.2.2.2.2.2.1⟩

end Vagent
